import Mathlib

/-!
Verification of the TicTacPro game-state engine
(`src/components/TicTacToe/TicTacToe.tsx`).

The board is the 9-cell grid of the source (`Array(9).fill(null)`),
modelled as a function `Fin 9 → Option Mark`; `null` is `none`.
The in-place array write `b[i] = v` is modelled by `setCell`, and the
minimax search, which in the source mutates a scratch board and undoes
each write (`b[i] = mark; …; b[i] = null`), is modelled in two
equivalent ways: `minimax` passes the written board functionally, and
`minimaxT` threads the scratch board through the loop exactly as the
mutation does, returning it so that restoration is provable.

The source recursion terminates because every recursive call fills one
of the at most 9 empty cells.  That bound appears here as a structural
fuel argument (always called with fuel 9, an upper bound for the number
of empty cells, so the fuel is never exhausted); this keeps every
definition computable by the kernel.
-/

/-- The two marks, `'X'` and `'O'` of the source. -/
inductive Mark where
  | X : Mark
  | O : Mark
deriving DecidableEq, Repr, Fintype

/-- A cell of the board: `null`, `'X'` or `'O'`. -/
abbrev Cell := Option Mark

/-- The 9-cell board, row-major. -/
abbrev Board := Fin 9 → Cell

/-- `initialBoard = Array(9).fill(null)`. -/
def emptyBoard : Board := fun _ => none

/-- The array write `b[i] = v`. -/
def setCell (b : Board) (i : Fin 9) (v : Cell) : Board :=
  fun j => if j = i then v else b j

/-- `currentPlayer === 'X' ? 'O' : 'X'`. -/
def otherMark : Mark → Mark
  | Mark.X => Mark.O
  | Mark.O => Mark.X

/-- The `winner` state: `null` (game running), `'draw'`, or a winning mark. -/
inductive Outcome where
  | inProgress : Outcome
  | draw : Outcome
  | win : Mark → Outcome
deriving DecidableEq, Repr

/-- The 8 `winningLines` of the source: 3 rows, 3 columns, 2 diagonals,
in the source's order. -/
def winningLines : List (Fin 9 × Fin 9 × Fin 9) :=
  [(0, 1, 2), (3, 4, 5), (6, 7, 8),
   (0, 3, 6), (1, 4, 7), (2, 5, 8),
   (0, 4, 8), (2, 4, 6)]

/-- `squares.includes(null)`: some cell is empty. -/
def hasEmpty (b : Board) : Bool :=
  (List.finRange 9).any fun i => b i = none

/-- One iteration of the winner loop: the test
`squares[a] && squares[a] === squares[b] && squares[a] === squares[c]`
for the line `l = [a, b, c]`. -/
def lineWin (squares : Board) (l : Fin 9 × Fin 9 × Fin 9) : Option Mark :=
  match squares l.1 with
  | some m => if squares l.2.1 = some m ∧ squares l.2.2 = some m then some m else none
  | none => none

/-- The shared loop of `evaluateWinner` and the minimax `evaluate`:
walk the 8 lines in order and return the mark of the first matching one. -/
def firstLineWinner (squares : Board) : Option Mark :=
  winningLines.findSome? (lineWin squares)

/-- `evaluateWinner(squares)`: the first winning line's mark if any,
otherwise `null` while a cell is empty, otherwise `'draw'`. -/
def evaluateWinner (squares : Board) : Outcome :=
  match firstLineWinner squares with
  | some m => Outcome.win m
  | none => if hasEmpty squares then Outcome.inProgress else Outcome.draw

/-- The minimax leaf scorer `evaluate(b)`: `+10` if the first winning
line belongs to `'O'`, `-10` if to `'X'`, else `0`. -/
def evaluate (b : Board) : Int :=
  match firstLineWinner b with
  | some m => if m = Mark.O then 10 else -10
  | none => 0

/-- `minimax(b, depth, isMax)` of the source, with a structural fuel
added (the source recursion consumes one empty cell per level, so any
fuel `≥` the number of empty cells — in particular 9 — is never
exhausted).  `-1000`/`1000` stand for the source's `-Infinity`/`Infinity`:
every achievable score lies in `[-19, 19]`, so the max/min results agree. -/
def minimax : Nat → Board → Nat → Bool → Int
  | 0, _, _, _ => 0
  | fuel + 1, b, depth, isMax =>
    let score := evaluate b
    if score ≠ 0 then score - (depth : Int) * (score / (score.natAbs : Int))
    else if !hasEmpty b then 0
    else
      (List.finRange 9).foldl
        (fun best i =>
          if b i = none then
            let value := minimax fuel (setCell b i (some (if isMax then Mark.O else Mark.X)))
              (depth + 1) (!isMax)
            if isMax then max best value else min best value
          else best)
        (if isMax then -1000 else 1000)

/-- One step of the root loop of `makeComputerMove` (hard difficulty):
try `'O'` at each empty `i` in ascending order and keep the first move
whose minimax value strictly beats the best so far. -/
def chooseStep (b : Board) (acc : Int × Int) (i : Fin 9) : Int × Int :=
  if b i = none then
    let val := minimax 9 (setCell b i (some Mark.O)) 0 false
    if val > acc.1 then (val, (i.val : Int)) else acc
  else acc

/-- The root loop of `makeComputerMove` (hard): `bestVal` starts at
`-Infinity` (here `-1000`) and `move` at `-1`; returns `(bestVal, move)`. -/
def chooseMove (currentBoard : Board) : Int × Int :=
  (List.finRange 9).foldl (chooseStep currentBoard) (-1000, -1)

/-- The easy-difficulty candidate list: indices of empty cells, in order
(`currentBoard.map((v,i) => v === null ? i : null).filter(v => v !== null)`). -/
def availableMoves (currentBoard : Board) : List (Fin 9) :=
  (List.finRange 9).filter fun i => currentBoard i = none

/-- `'easy' | 'hard'` difficulty of the source. -/
inductive Difficulty where
  | easy : Difficulty
  | hard : Difficulty
deriving DecidableEq, Repr

/-- `'single' | 'multi'` game mode of the source. -/
inductive GameMode where
  | single : GameMode
  | multi : GameMode
deriving DecidableEq, Repr

/-- The move-choosing part of `makeComputerMove`: the minimax root loop
on hard, `available[Math.floor(Math.random() * available.length)]` on easy
(the random draw is modelled by the parameter `r`; a real draw satisfies
`r < available.length`).  `-1` is the source's initial/failed move value
(easy on a full board reads `available[0] === undefined`; writing at it
changes no cell, `applyMoveO` below). -/
def selectMove (b : Board) (difficulty : Difficulty) (r : Nat) : Int :=
  match difficulty with
  | Difficulty.hard => (chooseMove b).2
  | Difficulty.easy =>
    match (availableMoves b).get? r with
    | some i => (i.val : Int)
    | none => -1

/-- `newBoard[move] = 'O'`: writes `'O'` at `move` when it is one of the
9 cell indices; a JavaScript write at any other key (the `-1` sentinel)
leaves all 9 cells unchanged. -/
def applyMoveO (b : Board) (move : Int) : Board :=
  if h : 0 ≤ move ∧ move < 9 then
    setCell b ⟨move.toNat, by omega⟩ (some Mark.O)
  else b

/-- The per-mark win tally `scores = { X: 0, O: 0 }`. -/
abbrev Scores := Mark → Nat

/-- The component state owned by the engine: `board`, `currentPlayer`,
`winner`, `gameMode`, `difficulty`, `scores`. -/
structure GameState where
  board : Board
  currentPlayer : Mark
  winner : Outcome
  gameMode : GameMode
  difficulty : Difficulty
  scores : Scores

/-- `scores[gameWinner] + 1` on the winning mark only. -/
def bumpScore (sc : Scores) (m : Mark) : Scores :=
  fun p => if p = m then sc p + 1 else sc p

/-- `updateGameState(index)`: silently ignore the move if the cell is
occupied or the game is over; otherwise place the current player's mark,
re-evaluate the winner, update `winner`/`scores` on a terminal result,
and flip the turn otherwise. -/
def updateGameState (s : GameState) (index : Fin 9) : GameState :=
  if s.board index ≠ none ∨ s.winner ≠ Outcome.inProgress then s
  else
    let newBoard := setCell s.board index (some s.currentPlayer)
    match evaluateWinner newBoard with
    | Outcome.win m =>
      { s with board := newBoard, winner := Outcome.win m, scores := bumpScore s.scores m }
    | Outcome.draw =>
      { s with board := newBoard, winner := Outcome.draw }
    | Outcome.inProgress =>
      { s with board := newBoard, currentPlayer := otherMark s.currentPlayer }

/-- `handleClick(index)`: forward to `updateGameState` only in two-player
mode or when it is `'X'`'s turn. -/
def handleClick (s : GameState) (index : Fin 9) : GameState :=
  if s.gameMode = GameMode.multi ∨ s.currentPlayer = Mark.X then updateGameState s index else s

/-- The tail of `makeComputerMove(currentBoard)`: place `'O'` at the
selected move, re-evaluate, update `winner`/`scores` on a terminal result
and hand the turn back to `'X'` otherwise. -/
def makeComputerMove (s : GameState) (r : Nat) : GameState :=
  let move := selectMove s.board s.difficulty r
  let newBoard := applyMoveO s.board move
  match evaluateWinner newBoard with
  | Outcome.win m =>
    { s with board := newBoard, winner := Outcome.win m, scores := bumpScore s.scores m }
  | Outcome.draw =>
    { s with board := newBoard, winner := Outcome.draw }
  | Outcome.inProgress =>
    { s with board := newBoard, currentPlayer := Mark.X }

/-- `resetGame()`: empty board, turn `'X'`, no winner; `scores` untouched. -/
def resetGame (s : GameState) : GameState :=
  { s with board := emptyBoard, currentPlayer := Mark.X, winner := Outcome.inProgress }

/-- The `useEffect` guard that schedules the computer's move:
single-player mode, `'O'` to move, no winner yet. -/
def computerMoveTriggered (s : GameState) : Prop :=
  s.gameMode = GameMode.single ∧ s.currentPlayer = Mark.O ∧ s.winner = Outcome.inProgress

/-- Board literal from a row-major 9-cell listing. -/
def boardOf (l : List Cell) : Board := fun i => l.getD i.val none

/-!
### A drawing-strategy certificate for the automated mark

`gvB` below assigns every board its coarse game value (−1, 0, or 1).
Establishing `0 ≤ gvB emptyBoard false` — the opposing mark cannot force
a win from the initial board — is done by checking a concrete strategy
tree for `'O'` against every `'X'` reply.  The checker runs on a plain
list representation of the board so that the kernel can evaluate it.
-/

/-- Cell equality as a plain Boolean function (kernel-efficient). -/
def beqCell : Cell → Cell → Bool
  | none, none => true
  | some Mark.X, some Mark.X => true
  | some Mark.O, some Mark.O => true
  | _, _ => false

/-- List-board read; out-of-range cells read as empty. -/
def getc : List Cell → Nat → Cell
  | [], _ => none
  | c :: _, 0 => c
  | _ :: l, n + 1 => getc l n

/-- List-board write; out-of-range writes change nothing. -/
def setc : List Cell → Nat → Cell → List Cell
  | [], _, _ => []
  | _ :: l, 0, v => v :: l
  | c :: l, n + 1, v => c :: setc l n v

/-- Rebuild a cell list into constructor normal form (identity; forces
evaluation so the kernel does not re-reduce pending writes). -/
def forceB : List Cell → List Cell
  | [] => []
  | none :: l => none :: forceB l
  | some Mark.X :: l => some Mark.X :: forceB l
  | some Mark.O :: l => some Mark.O :: forceB l

/-- One line of `firstLineWinner`, on the list board. -/
def lineVal (b : List Cell) (a c d : Nat) : Option Mark :=
  match getc b a with
  | some m => if beqCell (getc b c) (some m) && beqCell (getc b d) (some m) then some m else none
  | none => none

/-- `firstLineWinner`, on the list board: the 8 lines in source order. -/
def lw (b : List Cell) : Option Mark :=
  match lineVal b 0 1 2 with
  | some m => some m
  | none =>
  match lineVal b 3 4 5 with
  | some m => some m
  | none =>
  match lineVal b 6 7 8 with
  | some m => some m
  | none =>
  match lineVal b 0 3 6 with
  | some m => some m
  | none =>
  match lineVal b 1 4 7 with
  | some m => some m
  | none =>
  match lineVal b 2 5 8 with
  | some m => some m
  | none =>
  match lineVal b 0 4 8 with
  | some m => some m
  | none => lineVal b 2 4 6

/-- Fullness of the list board. -/
def fullL (b : List Cell) : Bool :=
  b.all fun c => !(beqCell c none)

/-- Strategy tree for the automated mark: at a board with `'X'` to move,
an entry `(i, j, sub)` says that after `'X'` plays `i`, `'O'` replies `j`
and play continues with `sub`. -/
inductive OStrat where
  | node : List (Nat × Nat × OStrat) → OStrat

/-- Find the strategy entry for the opponent's move `i`. -/
def findReply : Nat → List (Nat × Nat × OStrat) → Option (Nat × OStrat)
  | _, [] => none
  | i, (k, j, s) :: rest => if i == k then some (j, s) else findReply i rest

/-- Check a strategy tree: at board `b` with `'X'` to move (no winning
line, not full), every empty cell `i` is examined; `'X'` moving there
must not complete a line, and if the board is not then full the strategy
must name a legal `'O'` reply that either wins, fills the board, or
leads to a safe subtree. -/
def certCheck : Nat → OStrat → List Cell → Bool
  | 0, _, _ => false
  | fuel + 1, OStrat.node entries, b =>
    [0, 1, 2, 3, 4, 5, 6, 7, 8].all fun i =>
      if beqCell (getc b i) none then
        let c := forceB (setc b i (some Mark.X))
        match lw c with
        | some _ => false
        | none =>
          if fullL c then true
          else
            match findReply i entries with
            | none => false
            | some (j, sub) =>
              if Nat.blt j 9 && beqCell (getc c j) none then
                let d := forceB (setc c j (some Mark.O))
                match lw d with
                | some Mark.O => true
                | some Mark.X => false
                | none => if fullL d then true else certCheck fuel sub d
              else false
      else true

/-- The concrete drawing strategy for `'O'` (win immediately when
possible, otherwise a minimax-optimal reply), covering every `'X'`
line of play from the empty board. -/
def oCert : OStrat :=
  OStrat.node [(0, 4, OStrat.node [(1, 2, OStrat.node [(3, 6, OStrat.node []), (5, 6, OStrat.node []), (6, 3, 
    OStrat.node [(5, 7, OStrat.node []), (7, 5, OStrat.node []), (8, 5, OStrat.node [])]), (7, 6, OStrat.node 
    []), (8, 6, OStrat.node [])]), (2, 1, OStrat.node [(3, 7, OStrat.node []), (5, 7, OStrat.node []), (6, 7, 
    OStrat.node []), (7, 3, OStrat.node [(5, 8, OStrat.node []), (6, 5, OStrat.node []), (8, 5, OStrat.node 
    [])]), (8, 7, OStrat.node [])]), (3, 6, OStrat.node [(1, 2, OStrat.node []), (2, 1, OStrat.node [(5, 7, 
    OStrat.node []), (7, 5, OStrat.node []), (8, 7, OStrat.node [])]), (5, 2, OStrat.node []), (7, 2, OStrat.node 
    []), (8, 2, OStrat.node [])]), (5, 1, OStrat.node [(2, 7, OStrat.node []), (3, 7, OStrat.node []), (6, 7, 
    OStrat.node []), (7, 6, OStrat.node [(2, 8, OStrat.node []), (3, 2, OStrat.node []), (8, 2, OStrat.node 
    [])]), (8, 7, OStrat.node [])]), (6, 3, OStrat.node [(1, 5, OStrat.node []), (2, 5, OStrat.node []), (5, 
    1, OStrat.node [(2, 7, OStrat.node []), (7, 8, OStrat.node []), (8, 7, OStrat.node [])]), (7, 5, OStrat.node 
    []), (8, 5, OStrat.node [])]), (7, 3, OStrat.node [(1, 5, OStrat.node []), (2, 5, OStrat.node []), (5, 2, 
    OStrat.node [(1, 6, OStrat.node []), (6, 8, OStrat.node []), (8, 6, OStrat.node [])]), (6, 5, OStrat.node 
    []), (8, 5, OStrat.node [])]), (8, 1, OStrat.node [(2, 7, OStrat.node []), (3, 7, OStrat.node []), (5, 7, 
    OStrat.node []), (6, 7, OStrat.node []), (7, 6, OStrat.node [(2, 5, OStrat.node []), (3, 2, OStrat.node 
    []), (5, 2, OStrat.node [])])])]), (1, 0, OStrat.node [(2, 3, OStrat.node [(4, 6, OStrat.node []), (5, 6, 
    OStrat.node []), (6, 4, OStrat.node [(5, 8, OStrat.node []), (7, 5, OStrat.node []), (8, 5, OStrat.node 
    [])]), (7, 6, OStrat.node []), (8, 6, OStrat.node [])]), (3, 4, OStrat.node [(2, 8, OStrat.node []), (5, 
    8, OStrat.node []), (6, 8, OStrat.node []), (7, 8, OStrat.node []), (8, 2, OStrat.node [(5, 6, OStrat.node 
    []), (6, 7, OStrat.node []), (7, 6, OStrat.node [])])]), (4, 7, OStrat.node [(2, 6, OStrat.node [(3, 8, 
    OStrat.node []), (5, 3, OStrat.node []), (8, 3, OStrat.node [])]), (3, 5, OStrat.node [(2, 6, OStrat.node 
    []), (6, 2, OStrat.node []), (8, 2, OStrat.node [])]), (5, 3, OStrat.node [(2, 6, OStrat.node []), (6, 2, 
    OStrat.node []), (8, 6, OStrat.node [])]), (6, 2, OStrat.node [(3, 5, OStrat.node []), (5, 3, OStrat.node 
    []), (8, 3, OStrat.node [])]), (8, 2, OStrat.node [(3, 5, OStrat.node []), (5, 3, OStrat.node []), (6, 3, 
    OStrat.node [])])]), (5, 6, OStrat.node [(2, 3, OStrat.node []), (3, 4, OStrat.node [(2, 8, OStrat.node 
    []), (7, 2, OStrat.node []), (8, 2, OStrat.node [])]), (4, 3, OStrat.node []), (7, 3, OStrat.node []), (8, 
    3, OStrat.node [])]), (6, 4, OStrat.node [(2, 8, OStrat.node []), (3, 8, OStrat.node []), (5, 8, OStrat.node 
    []), (7, 8, OStrat.node []), (8, 7, OStrat.node [(2, 5, OStrat.node []), (3, 2, OStrat.node []), (5, 2, 
    OStrat.node [])])]), (7, 4, OStrat.node [(2, 8, OStrat.node []), (3, 8, OStrat.node []), (5, 8, OStrat.node 
    []), (6, 8, OStrat.node []), (8, 6, OStrat.node [(2, 3, OStrat.node []), (3, 2, OStrat.node []), (5, 2, 
    OStrat.node [])])]), (8, 4, OStrat.node [(2, 5, OStrat.node [(3, 6, OStrat.node []), (6, 3, OStrat.node 
    []), (7, 3, OStrat.node [])]), (3, 2, OStrat.node [(5, 6, OStrat.node []), (6, 7, OStrat.node []), (7, 6, 
    OStrat.node [])]), (5, 2, OStrat.node [(3, 6, OStrat.node []), (6, 7, OStrat.node []), (7, 6, OStrat.node 
    [])]), (6, 7, OStrat.node [(2, 5, OStrat.node []), (3, 2, OStrat.node []), (5, 2, OStrat.node [])]), (7, 
    6, OStrat.node [(2, 3, OStrat.node []), (3, 2, OStrat.node []), (5, 2, OStrat.node [])])])]), (2, 4, OStrat.node 
    [(0, 1, OStrat.node [(3, 7, OStrat.node []), (5, 7, OStrat.node []), (6, 7, OStrat.node []), (7, 3, OStrat.node 
    [(5, 8, OStrat.node []), (6, 5, OStrat.node []), (8, 5, OStrat.node [])]), (8, 7, OStrat.node [])]), (1, 
    0, OStrat.node [(3, 8, OStrat.node []), (5, 8, OStrat.node []), (6, 8, OStrat.node []), (7, 8, OStrat.node 
    []), (8, 5, OStrat.node [(3, 6, OStrat.node []), (6, 3, OStrat.node []), (7, 3, OStrat.node [])])]), (3, 
    0, OStrat.node [(1, 8, OStrat.node []), (5, 8, OStrat.node []), (6, 8, OStrat.node []), (7, 8, OStrat.node 
    []), (8, 5, OStrat.node [(1, 6, OStrat.node []), (6, 7, OStrat.node []), (7, 6, OStrat.node [])])]), (5, 
    8, OStrat.node [(0, 1, OStrat.node [(3, 7, OStrat.node []), (6, 7, OStrat.node []), (7, 3, OStrat.node [])]), 
    (1, 0, OStrat.node []), (3, 0, OStrat.node []), (6, 0, OStrat.node []), (7, 0, OStrat.node [])]), (6, 1, 
    OStrat.node [(0, 7, OStrat.node []), (3, 7, OStrat.node []), (5, 7, OStrat.node []), (7, 8, OStrat.node 
    [(0, 3, OStrat.node []), (3, 0, OStrat.node []), (5, 0, OStrat.node [])]), (8, 7, OStrat.node [])]), (7, 
    3, OStrat.node [(0, 5, OStrat.node []), (1, 5, OStrat.node []), (5, 8, OStrat.node [(0, 1, OStrat.node []), 
    (1, 0, OStrat.node []), (6, 0, OStrat.node [])]), (6, 5, OStrat.node []), (8, 5, OStrat.node [])]), (8, 
    5, OStrat.node [(0, 3, OStrat.node []), (1, 3, OStrat.node []), (3, 0, OStrat.node [(1, 6, OStrat.node []), 
    (6, 7, OStrat.node []), (7, 6, OStrat.node [])]), (6, 3, OStrat.node []), (7, 3, OStrat.node [])])]), (3, 
    0, OStrat.node [(1, 4, OStrat.node [(2, 8, OStrat.node []), (5, 8, OStrat.node []), (6, 8, OStrat.node []), 
    (7, 8, OStrat.node []), (8, 2, OStrat.node [(5, 6, OStrat.node []), (6, 7, OStrat.node []), (7, 6, OStrat.node 
    [])])]), (2, 4, OStrat.node [(1, 8, OStrat.node []), (5, 8, OStrat.node []), (6, 8, OStrat.node []), (7, 
    8, OStrat.node []), (8, 5, OStrat.node [(1, 6, OStrat.node []), (6, 7, OStrat.node []), (7, 6, OStrat.node 
    [])])]), (4, 5, OStrat.node [(1, 7, OStrat.node [(2, 6, OStrat.node []), (6, 2, OStrat.node []), (8, 2, 
    OStrat.node [])]), (2, 6, OStrat.node [(1, 7, OStrat.node []), (7, 1, OStrat.node []), (8, 1, OStrat.node 
    [])]), (6, 2, OStrat.node [(1, 8, OStrat.node []), (7, 1, OStrat.node []), (8, 1, OStrat.node [])]), (7, 
    1, OStrat.node [(2, 6, OStrat.node []), (6, 2, OStrat.node []), (8, 2, OStrat.node [])]), (8, 1, OStrat.node 
    [(2, 6, OStrat.node []), (6, 2, OStrat.node []), (7, 2, OStrat.node [])])]), (5, 4, OStrat.node [(1, 8, 
    OStrat.node []), (2, 8, OStrat.node []), (6, 8, OStrat.node []), (7, 8, OStrat.node []), (8, 2, OStrat.node 
    [(1, 6, OStrat.node []), (6, 1, OStrat.node []), (7, 1, OStrat.node [])])]), (6, 1, OStrat.node [(2, 4, 
    OStrat.node [(5, 7, OStrat.node []), (7, 8, OStrat.node []), (8, 7, OStrat.node [])]), (4, 2, OStrat.node 
    []), (5, 2, OStrat.node []), (7, 2, OStrat.node []), (8, 2, OStrat.node [])]), (7, 2, OStrat.node [(1, 4, 
    OStrat.node [(5, 6, OStrat.node []), (6, 8, OStrat.node []), (8, 6, OStrat.node [])]), (4, 1, OStrat.node 
    []), (5, 1, OStrat.node []), (6, 1, OStrat.node []), (8, 1, OStrat.node [])]), (8, 2, OStrat.node [(1, 4, 
    OStrat.node [(5, 6, OStrat.node []), (6, 7, OStrat.node []), (7, 6, OStrat.node [])]), (4, 1, OStrat.node 
    []), (5, 1, OStrat.node []), (6, 1, OStrat.node []), (7, 1, OStrat.node [])])]), (4, 0, OStrat.node [(1, 
    7, OStrat.node [(2, 6, OStrat.node [(3, 8, OStrat.node []), (5, 3, OStrat.node []), (8, 3, OStrat.node [])]), 
    (3, 5, OStrat.node [(2, 6, OStrat.node []), (6, 2, OStrat.node []), (8, 2, OStrat.node [])]), (5, 3, OStrat.node 
    [(2, 6, OStrat.node []), (6, 2, OStrat.node []), (8, 6, OStrat.node [])]), (6, 2, OStrat.node [(3, 5, OStrat.node 
    []), (5, 3, OStrat.node []), (8, 3, OStrat.node [])]), (8, 2, OStrat.node [(3, 5, OStrat.node []), (5, 3, 
    OStrat.node []), (6, 3, OStrat.node [])])]), (2, 6, OStrat.node [(1, 3, OStrat.node []), (3, 5, OStrat.node 
    [(1, 7, OStrat.node []), (7, 1, OStrat.node []), (8, 1, OStrat.node [])]), (5, 3, OStrat.node []), (7, 3, 
    OStrat.node []), (8, 3, OStrat.node [])]), (3, 5, OStrat.node [(1, 7, OStrat.node [(2, 6, OStrat.node []), 
    (6, 2, OStrat.node []), (8, 2, OStrat.node [])]), (2, 6, OStrat.node [(1, 7, OStrat.node []), (7, 1, OStrat.node 
    []), (8, 1, OStrat.node [])]), (6, 2, OStrat.node [(1, 8, OStrat.node []), (7, 1, OStrat.node []), (8, 1, 
    OStrat.node [])]), (7, 1, OStrat.node [(2, 6, OStrat.node []), (6, 2, OStrat.node []), (8, 2, OStrat.node 
    [])]), (8, 1, OStrat.node [(2, 6, OStrat.node []), (6, 2, OStrat.node []), (7, 2, OStrat.node [])])]), (5, 
    3, OStrat.node [(1, 6, OStrat.node []), (2, 6, OStrat.node []), (6, 2, OStrat.node [(1, 7, OStrat.node []), 
    (7, 1, OStrat.node []), (8, 1, OStrat.node [])]), (7, 6, OStrat.node []), (8, 6, OStrat.node [])]), (6, 
    2, OStrat.node [(1, 7, OStrat.node [(3, 5, OStrat.node []), (5, 3, OStrat.node []), (8, 3, OStrat.node [])]), 
    (3, 1, OStrat.node []), (5, 1, OStrat.node []), (7, 1, OStrat.node []), (8, 1, OStrat.node [])]), (7, 1, 
    OStrat.node [(2, 6, OStrat.node [(3, 5, OStrat.node []), (5, 3, OStrat.node []), (8, 3, OStrat.node [])]), 
    (3, 2, OStrat.node []), (5, 2, OStrat.node []), (6, 2, OStrat.node []), (8, 2, OStrat.node [])]), (8, 2, 
    OStrat.node [(1, 7, OStrat.node [(3, 5, OStrat.node []), (5, 3, OStrat.node []), (6, 3, OStrat.node [])]), 
    (3, 1, OStrat.node []), (5, 1, OStrat.node []), (6, 1, OStrat.node []), (7, 1, OStrat.node [])])]), (5, 
    2, OStrat.node [(0, 3, OStrat.node [(1, 4, OStrat.node [(6, 7, OStrat.node []), (7, 6, OStrat.node []), 
    (8, 6, OStrat.node [])]), (4, 8, OStrat.node [(1, 7, OStrat.node []), (6, 1, OStrat.node []), (7, 1, OStrat.node 
    [])]), (6, 4, OStrat.node [(1, 7, OStrat.node []), (7, 8, OStrat.node []), (8, 7, OStrat.node [])]), (7, 
    4, OStrat.node [(1, 6, OStrat.node []), (6, 8, OStrat.node []), (8, 6, OStrat.node [])]), (8, 4, OStrat.node 
    [(1, 6, OStrat.node []), (6, 7, OStrat.node []), (7, 6, OStrat.node [])])]), (1, 3, OStrat.node [(0, 4, 
    OStrat.node [(6, 7, OStrat.node []), (7, 6, OStrat.node []), (8, 6, OStrat.node [])]), (4, 7, OStrat.node 
    [(0, 8, OStrat.node []), (6, 0, OStrat.node []), (8, 0, OStrat.node [])]), (6, 4, OStrat.node [(0, 7, OStrat.node 
    []), (7, 8, OStrat.node []), (8, 7, OStrat.node [])]), (7, 4, OStrat.node [(0, 6, OStrat.node []), (6, 8, 
    OStrat.node []), (8, 6, OStrat.node [])]), (8, 6, OStrat.node [(0, 4, OStrat.node []), (4, 0, OStrat.node 
    []), (7, 0, OStrat.node [])])]), (3, 4, OStrat.node [(0, 6, OStrat.node []), (1, 6, OStrat.node []), (6, 
    0, OStrat.node [(1, 8, OStrat.node []), (7, 1, OStrat.node []), (8, 1, OStrat.node [])]), (7, 6, OStrat.node 
    []), (8, 6, OStrat.node [])]), (4, 3, OStrat.node [(0, 8, OStrat.node [(1, 7, OStrat.node []), (6, 1, OStrat.node 
    []), (7, 1, OStrat.node [])]), (1, 7, OStrat.node [(0, 8, OStrat.node []), (6, 0, OStrat.node []), (8, 0, 
    OStrat.node [])]), (6, 0, OStrat.node [(1, 7, OStrat.node []), (7, 1, OStrat.node []), (8, 1, OStrat.node 
    [])]), (7, 1, OStrat.node [(0, 8, OStrat.node []), (6, 0, OStrat.node []), (8, 0, OStrat.node [])]), (8, 
    0, OStrat.node [(1, 6, OStrat.node []), (6, 1, OStrat.node []), (7, 1, OStrat.node [])])]), (6, 0, OStrat.node 
    [(1, 4, OStrat.node [(3, 8, OStrat.node []), (7, 8, OStrat.node []), (8, 7, OStrat.node [])]), (3, 1, OStrat.node 
    []), (4, 1, OStrat.node []), (7, 1, OStrat.node []), (8, 1, OStrat.node [])]), (7, 0, OStrat.node [(1, 4, 
    OStrat.node [(3, 6, OStrat.node []), (6, 8, OStrat.node []), (8, 6, OStrat.node [])]), (3, 1, OStrat.node 
    []), (4, 1, OStrat.node []), (6, 1, OStrat.node []), (8, 1, OStrat.node [])]), (8, 0, OStrat.node [(1, 6, 
    OStrat.node [(3, 4, OStrat.node []), (4, 3, OStrat.node []), (7, 3, OStrat.node [])]), (3, 1, OStrat.node 
    []), (4, 1, OStrat.node []), (6, 1, OStrat.node []), (7, 1, OStrat.node [])])]), (6, 4, OStrat.node [(0, 
    3, OStrat.node [(1, 5, OStrat.node []), (2, 5, OStrat.node []), (5, 1, OStrat.node [(2, 7, OStrat.node []), 
    (7, 8, OStrat.node []), (8, 7, OStrat.node [])]), (7, 5, OStrat.node []), (8, 5, OStrat.node [])]), (1, 
    0, OStrat.node [(2, 8, OStrat.node []), (3, 8, OStrat.node []), (5, 8, OStrat.node []), (7, 8, OStrat.node 
    []), (8, 7, OStrat.node [(2, 5, OStrat.node []), (3, 2, OStrat.node []), (5, 2, OStrat.node [])])]), (2, 
    1, OStrat.node [(0, 7, OStrat.node []), (3, 7, OStrat.node []), (5, 7, OStrat.node []), (7, 8, OStrat.node 
    [(0, 3, OStrat.node []), (3, 0, OStrat.node []), (5, 0, OStrat.node [])]), (8, 7, OStrat.node [])]), (3, 
    0, OStrat.node [(1, 8, OStrat.node []), (2, 8, OStrat.node []), (5, 8, OStrat.node []), (7, 8, OStrat.node 
    []), (8, 7, OStrat.node [(1, 2, OStrat.node []), (2, 1, OStrat.node []), (5, 1, OStrat.node [])])]), (5, 
    1, OStrat.node [(0, 7, OStrat.node []), (2, 7, OStrat.node []), (3, 7, OStrat.node []), (7, 8, OStrat.node 
    [(0, 3, OStrat.node []), (2, 0, OStrat.node []), (3, 0, OStrat.node [])]), (8, 7, OStrat.node [])]), (7, 
    8, OStrat.node [(0, 3, OStrat.node [(1, 5, OStrat.node []), (2, 5, OStrat.node []), (5, 1, OStrat.node [])]), 
    (1, 0, OStrat.node []), (2, 0, OStrat.node []), (3, 0, OStrat.node []), (5, 0, OStrat.node [])]), (8, 7, 
    OStrat.node [(0, 1, OStrat.node []), (1, 0, OStrat.node [(2, 5, OStrat.node []), (3, 2, OStrat.node []), 
    (5, 2, OStrat.node [])]), (2, 1, OStrat.node []), (3, 1, OStrat.node []), (5, 1, OStrat.node [])])]), (7, 
    1, OStrat.node [(0, 6, OStrat.node [(2, 4, OStrat.node [(3, 5, OStrat.node []), (5, 8, OStrat.node []), 
    (8, 5, OStrat.node [])]), (3, 4, OStrat.node [(2, 5, OStrat.node []), (5, 2, OStrat.node []), (8, 2, OStrat.node 
    [])]), (4, 8, OStrat.node [(2, 3, OStrat.node []), (3, 5, OStrat.node []), (5, 3, OStrat.node [])]), (5, 
    4, OStrat.node [(2, 8, OStrat.node []), (3, 2, OStrat.node []), (8, 2, OStrat.node [])]), (8, 4, OStrat.node 
    [(2, 5, OStrat.node []), (3, 2, OStrat.node []), (5, 2, OStrat.node [])])]), (2, 6, OStrat.node [(0, 4, 
    OStrat.node [(3, 5, OStrat.node []), (5, 8, OStrat.node []), (8, 5, OStrat.node [])]), (3, 4, OStrat.node 
    [(0, 5, OStrat.node []), (5, 8, OStrat.node []), (8, 5, OStrat.node [])]), (4, 0, OStrat.node [(3, 5, OStrat.node 
    []), (5, 3, OStrat.node []), (8, 3, OStrat.node [])]), (5, 8, OStrat.node [(0, 3, OStrat.node []), (3, 4, 
    OStrat.node []), (4, 3, OStrat.node [])]), (8, 5, OStrat.node [(0, 4, OStrat.node []), (3, 0, OStrat.node 
    []), (4, 0, OStrat.node [])])]), (3, 6, OStrat.node [(0, 4, OStrat.node [(2, 5, OStrat.node []), (5, 2, 
    OStrat.node []), (8, 2, OStrat.node [])]), (2, 4, OStrat.node [(0, 5, OStrat.node []), (5, 8, OStrat.node 
    []), (8, 5, OStrat.node [])]), (4, 5, OStrat.node [(0, 8, OStrat.node []), (2, 0, OStrat.node []), (8, 0, 
    OStrat.node [])]), (5, 4, OStrat.node [(0, 2, OStrat.node []), (2, 8, OStrat.node []), (8, 2, OStrat.node 
    [])]), (8, 2, OStrat.node [(0, 4, OStrat.node []), (4, 0, OStrat.node []), (5, 0, OStrat.node [])])]), (4, 
    0, OStrat.node [(2, 6, OStrat.node [(3, 5, OStrat.node []), (5, 3, OStrat.node []), (8, 3, OStrat.node [])]), 
    (3, 2, OStrat.node []), (5, 2, OStrat.node []), (6, 2, OStrat.node []), (8, 2, OStrat.node [])]), (5, 6, 
    OStrat.node [(0, 4, OStrat.node [(2, 8, OStrat.node []), (3, 2, OStrat.node []), (8, 2, OStrat.node [])]), 
    (2, 8, OStrat.node [(0, 3, OStrat.node []), (3, 4, OStrat.node []), (4, 3, OStrat.node [])]), (3, 4, OStrat.node 
    [(0, 2, OStrat.node []), (2, 8, OStrat.node []), (8, 2, OStrat.node [])]), (4, 3, OStrat.node [(0, 8, OStrat.node 
    []), (2, 0, OStrat.node []), (8, 0, OStrat.node [])]), (8, 2, OStrat.node [(0, 4, OStrat.node []), (3, 0, 
    OStrat.node []), (4, 0, OStrat.node [])])]), (6, 8, OStrat.node [(0, 3, OStrat.node [(2, 4, OStrat.node 
    []), (4, 2, OStrat.node []), (5, 2, OStrat.node [])]), (2, 4, OStrat.node [(0, 3, OStrat.node []), (3, 0, 
    OStrat.node []), (5, 0, OStrat.node [])]), (3, 0, OStrat.node [(2, 4, OStrat.node []), (4, 2, OStrat.node 
    []), (5, 2, OStrat.node [])]), (4, 2, OStrat.node [(0, 5, OStrat.node []), (3, 0, OStrat.node []), (5, 0, 
    OStrat.node [])]), (5, 0, OStrat.node [(2, 4, OStrat.node []), (3, 2, OStrat.node []), (4, 2, OStrat.node 
    [])])]), (8, 6, OStrat.node [(0, 4, OStrat.node [(2, 5, OStrat.node []), (3, 2, OStrat.node []), (5, 2, 
    OStrat.node [])]), (2, 5, OStrat.node [(0, 4, OStrat.node []), (3, 0, OStrat.node []), (4, 0, OStrat.node 
    [])]), (3, 2, OStrat.node [(0, 4, OStrat.node []), (4, 0, OStrat.node []), (5, 0, OStrat.node [])]), (4, 
    0, OStrat.node [(2, 3, OStrat.node []), (3, 2, OStrat.node []), (5, 2, OStrat.node [])]), (5, 2, OStrat.node 
    [(0, 4, OStrat.node []), (3, 0, OStrat.node []), (4, 0, OStrat.node [])])])]), (8, 4, OStrat.node [(0, 1, 
    OStrat.node [(2, 7, OStrat.node []), (3, 7, OStrat.node []), (5, 7, OStrat.node []), (6, 7, OStrat.node 
    []), (7, 6, OStrat.node [(2, 5, OStrat.node []), (3, 2, OStrat.node []), (5, 2, OStrat.node [])])]), (1, 
    0, OStrat.node [(2, 5, OStrat.node [(3, 6, OStrat.node []), (6, 3, OStrat.node []), (7, 3, OStrat.node [])]), 
    (3, 2, OStrat.node [(5, 6, OStrat.node []), (6, 7, OStrat.node []), (7, 6, OStrat.node [])]), (5, 2, OStrat.node 
    [(3, 6, OStrat.node []), (6, 7, OStrat.node []), (7, 6, OStrat.node [])]), (6, 7, OStrat.node [(2, 5, OStrat.node 
    []), (3, 2, OStrat.node []), (5, 2, OStrat.node [])]), (7, 6, OStrat.node [(2, 3, OStrat.node []), (3, 2, 
    OStrat.node []), (5, 2, OStrat.node [])])]), (2, 5, OStrat.node [(0, 3, OStrat.node []), (1, 3, OStrat.node 
    []), (3, 0, OStrat.node [(1, 6, OStrat.node []), (6, 7, OStrat.node []), (7, 6, OStrat.node [])]), (6, 3, 
    OStrat.node []), (7, 3, OStrat.node [])]), (3, 0, OStrat.node [(1, 2, OStrat.node [(5, 6, OStrat.node []), 
    (6, 7, OStrat.node []), (7, 6, OStrat.node [])]), (2, 5, OStrat.node [(1, 6, OStrat.node []), (6, 7, OStrat.node 
    []), (7, 6, OStrat.node [])]), (5, 2, OStrat.node [(1, 6, OStrat.node []), (6, 1, OStrat.node []), (7, 1, 
    OStrat.node [])]), (6, 7, OStrat.node [(1, 2, OStrat.node []), (2, 1, OStrat.node []), (5, 1, OStrat.node 
    [])]), (7, 6, OStrat.node [(1, 2, OStrat.node []), (2, 5, OStrat.node []), (5, 2, OStrat.node [])])]), (5, 
    2, OStrat.node [(0, 6, OStrat.node []), (1, 6, OStrat.node []), (3, 6, OStrat.node []), (6, 7, OStrat.node 
    [(0, 1, OStrat.node []), (1, 0, OStrat.node []), (3, 1, OStrat.node [])]), (7, 6, OStrat.node [])]), (6, 
    7, OStrat.node [(0, 1, OStrat.node []), (1, 0, OStrat.node [(2, 5, OStrat.node []), (3, 2, OStrat.node []), 
    (5, 2, OStrat.node [])]), (2, 1, OStrat.node []), (3, 1, OStrat.node []), (5, 1, OStrat.node [])]), (7, 
    6, OStrat.node [(0, 2, OStrat.node []), (1, 2, OStrat.node []), (2, 5, OStrat.node [(0, 3, OStrat.node []), 
    (1, 3, OStrat.node []), (3, 0, OStrat.node [])]), (3, 2, OStrat.node []), (5, 2, OStrat.node [])])])]

/-! ### Counting empty cells (the termination measure of the search) -/

/-- The number of empty cells of a board. -/
def noneCount (b : Board) : Nat :=
  (Finset.univ.filter fun i => b i = none).card

/-! ### The coarse game value

`gvB b isMax` is the game-theoretic value of board `b` with the
automated mark to move iff `isMax`, collapsed to `{-1, 0, 1}`: it has
the same search structure as `minimax` but scores a finished game only
by its winner.  It is the reference point for the sign analysis of the
depth-shaped minimax score. -/
def gvB (b : Board) (isMax : Bool) : Int :=
  let score := evaluate b
  if score ≠ 0 then Int.sign score
  else if !hasEmpty b then 0
  else
    (List.finRange 9).foldl
      (fun best i =>
        if hi : b i = none then
          let value := gvB (setCell b i (some (if isMax then Mark.O else Mark.X))) (!isMax)
          if isMax then max best value else min best value
        else best)
      (if isMax then -1 else 1)
termination_by noneCount b
decreasing_by
  show noneCount (setCell b i (some (if isMax then Mark.O else Mark.X))) < noneCount b
  have hset : (Finset.univ.filter
      fun j => setCell b i (some (if isMax then Mark.O else Mark.X)) j = none) =
      (Finset.univ.filter fun j => b j = none).erase i := by
    ext j
    by_cases h : j = i <;> simp [setCell, h]
  rw [noneCount, noneCount, hset]
  exact Finset.card_erase_lt_of_mem (by simp [hi])

/-! ### The root loop selects the first empty cell of maximal value -/

/-- The minimax value the root loop assigns to playing `'O'` at `i`. -/
def valAt (b : Board) (i : Fin 9) : Int :=
  minimax 9 (setCell b i (some Mark.O)) 0 false

/-! ### The single-player game loop -/

/-- The computer's turn as triggered by the `useEffect`: if the game is
running, apply the hard-difficulty move for `'O'`. -/
def oTurn (b : Board) : Board :=
  if evaluateWinner b = Outcome.inProgress then applyMoveO b (chooseMove b).2 else b

/-- The single-player game from board `b` with `'X'` to move, against the
list `xs` of human tap positions: a tap on an occupied cell is ignored
(as in the source), any other tap places `'X'` and hands the turn to the
computer; play stops at a terminal outcome or when the taps run out. -/
def playX (b : Board) : List (Fin 9) → Board
  | [] => b
  | i :: rest =>
    if evaluateWinner b = Outcome.inProgress then
      if b i = none then playX (oTurn (setCell b i (some Mark.X))) rest
      else playX b rest
    else b

/-- Legal alternating play: starting from a state `(board, mover)`,
apply the given moves in turn, refusing illegal moves and moves after
the game has ended.  Returns the reached state. -/
def buildB : List (Fin 9) → Board × Mark → Option (Board × Mark)
  | [], s => some s
  | i :: rest, (b, t) =>
    if evaluateWinner b = Outcome.inProgress ∧ b i = none then
      buildB rest (setCell b i (some t), otherMark t)
    else none

/-! ### Bridging the list board to the function board -/

/-- The list view of a board. -/
def listOf (b : Board) : List Cell :=
  [b 0, b 1, b 2, b 3, b 4, b 5, b 6, b 7, b 8]

/-- The board after the legal alternating moves 0, 1, 2, 3, 4 from the
empty board: `X` owns cells 0, 2, 4 and `O` owns cells 1, 3, with `O` to
move.  `X` threatens both cell 6 (line 2-4-6) and cell 8 (line 0-4-8). -/
def cexBoard : Board :=
  boardOf [some Mark.X, some Mark.O, some Mark.X, some Mark.O, some Mark.X,
    none, none, none, none]

/-! ### The scratch-board threading of the search

The source's `minimax` mutates the board it is handed (`b[i] = mark`,
recurse, `b[i] = null`), and the root loop of `makeComputerMove` does
the same to `currentBoard`.  `minimaxT` and `chooseMoveT` model exactly
that: the scratch board is threaded through every loop iteration and
returned, so "the board is fully restored" is a provable statement. -/

def minimaxT : Nat → Board → Nat → Bool → Int × Board
  | 0, b, _, _ => (0, b)
  | fuel + 1, b, depth, isMax =>
    let score := evaluate b
    if score ≠ 0 then (score - (depth : Int) * (score / (score.natAbs : Int)), b)
    else if !hasEmpty b then (0, b)
    else
      (List.finRange 9).foldl
        (fun acc i =>
          if acc.2 i = none then
            let r := minimaxT fuel (setCell acc.2 i (some (if isMax then Mark.O else Mark.X)))
              (depth + 1) (!isMax)
            ((if isMax then max acc.1 r.1 else min acc.1 r.1), setCell r.2 i none)
          else acc)
        ((if isMax then -1000 else 1000), b)

def chooseMoveT (currentBoard : Board) : (Int × Int) × Board :=
  (List.finRange 9).foldl
    (fun acc i =>
      if acc.2 i = none then
        let r := minimaxT 9 (setCell acc.2 i (some Mark.O)) 0 false
        ((if r.1 > acc.1.1 then (r.1, (i.val : Int)) else acc.1), setCell r.2 i none)
      else acc)
    ((-1000, -1), currentBoard)

/-! ### The specification-side outcome function (for claim C2) -/

/-- Spec wording: a line whose three cells hold identical non-empty
marks. -/
def lineAllSame (b : Board) (l : Fin 9 × Fin 9 × Fin 9) : Prop :=
  ∃ m : Mark, b l.1 = some m ∧ b l.2.1 = some m ∧ b l.2.2 = some m

instance (b : Board) (l : Fin 9 × Fin 9 × Fin 9) : Decidable (lineAllSame b l) :=
  decidable_of_iff (∃ m : Mark, b l.1 = some m ∧ b l.2.1 = some m ∧ b l.2.2 = some m) Iff.rfl

/-- The outcome as the claim words it: the mark of the first line, in
the fixed enumeration order, whose three cells hold identical non-empty
marks; if no line matches, `Draw` exactly when all 9 cells are
non-empty, and `InProgress` otherwise. -/
def evaluateOutcomeSpec (b : Board) : Outcome :=
  match winningLines.find? (fun l => decide (lineAllSame b l)) with
  | some l =>
    match b l.1 with
    | some m => Outcome.win m
    | none => Outcome.inProgress
  | none => if ∀ i, b i ≠ none then Outcome.draw else Outcome.inProgress

/-! ### The claim theorems -/

def zeroScores : Scores := fun _ => 0

def initState : GameState :=
  { board := emptyBoard, currentPlayer := Mark.X, winner := Outcome.inProgress,
    gameMode := GameMode.single, difficulty := Difficulty.hard, scores := zeroScores }

def drawnState : GameState := { initState with winner := Outcome.draw }

/-- Board `[X, X, None, O, O, None, None, None, None]` of the examples. -/
def blockWinBoard : Board :=
  boardOf [some Mark.X, some Mark.X, none, some Mark.O, some Mark.O, none, none, none, none]

/-- Board `[O, O, None, X, X, None, None, None, None]` of the examples. -/
def ownWinBoard : Board :=
  boardOf [some Mark.O, some Mark.O, none, some Mark.X, some Mark.X, none, none, none, none]

/-- Board with a completed `'O'` line. -/
def oWinBoard : Board :=
  boardOf [some Mark.O, some Mark.O, some Mark.O, none, none, none, none, none, none]


theorem setCell_same (b : Board) (i : Fin 9) (v : Cell) : setCell b i v i = v := by
  simp [setCell]

theorem setCell_other (b : Board) (i : Fin 9) (v : Cell) {j : Fin 9} (h : j ≠ i) :
    setCell b i v j = b j := by
  simp [setCell, h]

theorem filter_setCell_none (b : Board) (i : Fin 9) (m : Mark) :
    (Finset.univ.filter fun j => setCell b i (some m) j = none) =
      (Finset.univ.filter fun j => b j = none).erase i := by
  ext j
  by_cases h : j = i <;> simp [setCell, h]

theorem noneCount_setCell_lt {b : Board} {i : Fin 9} (m : Mark) (hi : b i = none) :
    noneCount (setCell b i (some m)) < noneCount b := by
  rw [noneCount, noneCount, filter_setCell_none]
  exact Finset.card_erase_lt_of_mem (by simp [hi])

theorem noneCount_setCell_le (b : Board) (i : Fin 9) (m : Mark) :
    noneCount (setCell b i (some m)) ≤ noneCount b := by
  rw [noneCount, noneCount, filter_setCell_none]
  exact le_trans (Finset.card_erase_le) le_rfl

theorem noneCount_le_nine (b : Board) : noneCount b ≤ 9 := by
  calc (Finset.univ.filter fun i => b i = none).card
      ≤ (Finset.univ : Finset (Fin 9)).card := Finset.card_filter_le _ _
    _ = 9 := by simp

theorem hasEmpty_iff {b : Board} : hasEmpty b = true ↔ ∃ i, b i = none := by
  simp [hasEmpty, List.any_eq_true, List.mem_finRange]

theorem hasEmpty_false_iff {b : Board} : hasEmpty b = false ↔ ∀ i, b i ≠ none := by
  rw [← Bool.not_eq_true, hasEmpty_iff]
  push_neg
  rfl

theorem noneCount_pos {b : Board} (h : hasEmpty b = true) : 0 < noneCount b := by
  obtain ⟨i, hi⟩ := hasEmpty_iff.mp h
  exact Finset.card_pos.mpr ⟨i, by simp [hi]⟩

/-! ### Generic lemmas about the search folds -/

theorem foldl_guard_eq {α β : Type} (p : α → Prop) [DecidablePred p]
    (f : α → β) (g : β → β → β) :
    ∀ (l : List α) (init : β),
      l.foldl (fun best i => if p i then g best (f i) else best) init =
        ((l.filter fun i => decide (p i)).map f).foldl g init := by
  intro l
  induction l with
  | nil => intro init; rfl
  | cons x xs ih =>
    intro init
    by_cases hx : p x <;> simp [hx, ih]

theorem le_foldl_max_iff (c : Int) :
    ∀ (l : List Int) (init : Int),
      c ≤ l.foldl max init ↔ c ≤ init ∨ ∃ x ∈ l, c ≤ x := by
  intro l
  induction l with
  | nil => intro init; simp
  | cons x xs ih =>
    intro init
    rw [List.foldl_cons, ih]
    constructor
    · rintro (h | ⟨y, hy, hc⟩)
      · rcases le_max_iff.mp h with h' | h'
        · exact Or.inl h'
        · exact Or.inr ⟨x, by simp, h'⟩
      · exact Or.inr ⟨y, by simp [hy], hc⟩
    · rintro (h | ⟨y, hy, hc⟩)
      · exact Or.inl (le_max_iff.mpr (Or.inl h))
      · rcases List.mem_cons.mp hy with rfl | hy'
        · exact Or.inl (le_max_iff.mpr (Or.inr hc))
        · exact Or.inr ⟨y, hy', hc⟩

theorem le_foldl_min_iff (c : Int) :
    ∀ (l : List Int) (init : Int),
      c ≤ l.foldl min init ↔ c ≤ init ∧ ∀ x ∈ l, c ≤ x := by
  intro l
  induction l with
  | nil => intro init; simp
  | cons x xs ih =>
    intro init
    rw [List.foldl_cons, ih]
    constructor
    · rintro ⟨h, hall⟩
      rcases le_min_iff.mp h with ⟨h1, h2⟩
      exact ⟨h1, fun y hy => by
        rcases List.mem_cons.mp hy with rfl | hy'
        · exact h2
        · exact hall y hy'⟩
    · rintro ⟨h, hall⟩
      refine ⟨le_min_iff.mpr ⟨h, hall x (by simp)⟩, fun y hy => hall y (by simp [hy])⟩

/-! ### Facts about `evaluate`, `evaluateWinner`, `availableMoves` -/

theorem evaluate_cases (b : Board) :
    evaluate b = 10 ∨ evaluate b = -10 ∨ evaluate b = 0 := by
  unfold evaluate
  match firstLineWinner b with
  | some m => by_cases h : m = Mark.O <;> simp [h]
  | none => simp

theorem evaluate_eq_zero_iff {b : Board} : evaluate b = 0 ↔ firstLineWinner b = none := by
  unfold evaluate
  match firstLineWinner b with
  | some m => by_cases h : m = Mark.O <;> simp [h]
  | none => simp

theorem evaluate_of_owin {b : Board} (h : firstLineWinner b = some Mark.O) :
    evaluate b = 10 := by
  unfold evaluate; rw [h]; simp

theorem evaluate_of_xwin {b : Board} (h : firstLineWinner b = some Mark.X) :
    evaluate b = -10 := by
  unfold evaluate; rw [h]; simp

theorem evaluateWinner_win_iff {b : Board} {m : Mark} :
    evaluateWinner b = Outcome.win m ↔ firstLineWinner b = some m := by
  unfold evaluateWinner
  match h : firstLineWinner b with
  | some m' => simp
  | none => by_cases he : hasEmpty b <;> simp [he]

theorem evaluateWinner_inProgress_iff {b : Board} :
    evaluateWinner b = Outcome.inProgress ↔ firstLineWinner b = none ∧ hasEmpty b = true := by
  unfold evaluateWinner
  match h : firstLineWinner b with
  | some m' => simp
  | none => by_cases he : hasEmpty b <;> simp [he]

theorem mem_availableMoves {b : Board} {i : Fin 9} :
    i ∈ availableMoves b ↔ b i = none := by
  simp [availableMoves, List.mem_filter, List.mem_finRange]

theorem availableMoves_ne_nil {b : Board} (h : hasEmpty b = true) :
    availableMoves b ≠ [] := by
  obtain ⟨i, hi⟩ := hasEmpty_iff.mp h
  exact List.ne_nil_of_mem (mem_availableMoves.mpr hi)

/-! ### Unfolding lemmas for `minimax` and `gvB` -/

theorem minimax_succ_of_ne {b : Board} (fuel depth : Nat) (isMax : Bool)
    (h : evaluate b ≠ 0) :
    minimax (fuel + 1) b depth isMax =
      evaluate b - (depth : Int) * (evaluate b / ((evaluate b).natAbs : Int)) := by
  rw [minimax]
  simp [h]

theorem minimax_succ_of_full {b : Board} (fuel depth : Nat) (isMax : Bool)
    (h0 : evaluate b = 0) (hf : hasEmpty b = false) :
    minimax (fuel + 1) b depth isMax = 0 := by
  rw [minimax]
  simp [h0, hf]

theorem minimax_succ_max {b : Board} (fuel depth : Nat)
    (h0 : evaluate b = 0) (he : hasEmpty b = true) :
    minimax (fuel + 1) b depth true =
      ((availableMoves b).map fun i =>
        minimax fuel (setCell b i (some Mark.O)) (depth + 1) false).foldl max (-1000) := by
  rw [minimax]
  simp only [h0, ne_eq, not_true_eq_false, if_false, he, Bool.not_true, Bool.false_eq_true,
    if_true, ite_true]
  rw [foldl_guard_eq (fun i => b i = none)
    (fun i => minimax fuel (setCell b i (some Mark.O)) (depth + 1) false) max]
  rfl

theorem minimax_succ_min {b : Board} (fuel depth : Nat)
    (h0 : evaluate b = 0) (he : hasEmpty b = true) :
    minimax (fuel + 1) b depth false =
      ((availableMoves b).map fun i =>
        minimax fuel (setCell b i (some Mark.X)) (depth + 1) true).foldl min 1000 := by
  rw [minimax]
  simp only [h0, ne_eq, not_true_eq_false, if_false, he, Bool.not_true, Bool.not_false,
    Bool.false_eq_true, if_true, ite_false]
  rw [foldl_guard_eq (fun i => b i = none)
    (fun i => minimax fuel (setCell b i (some Mark.X)) (depth + 1) true) min]
  rfl

theorem gvB_of_ne {b : Board} (isMax : Bool) (h : evaluate b ≠ 0) :
    gvB b isMax = Int.sign (evaluate b) := by
  rw [gvB]
  simp [h]

theorem gvB_of_full {b : Board} (isMax : Bool)
    (h0 : evaluate b = 0) (hf : hasEmpty b = false) :
    gvB b isMax = 0 := by
  rw [gvB]
  simp [h0, hf]

theorem gvB_max {b : Board} (h0 : evaluate b = 0) (he : hasEmpty b = true) :
    gvB b true =
      ((availableMoves b).map fun i => gvB (setCell b i (some Mark.O)) false).foldl max (-1) := by
  rw [gvB]
  simp only [h0, ne_eq, not_true_eq_false, if_false, he, Bool.not_true, Bool.not_false,
    Bool.false_eq_true, if_true, ite_true, dite_eq_ite]
  rw [foldl_guard_eq (fun i => b i = none)
    (fun i => gvB (setCell b i (some Mark.O)) false) max]
  rfl

theorem gvB_min {b : Board} (h0 : evaluate b = 0) (he : hasEmpty b = true) :
    gvB b false =
      ((availableMoves b).map fun i => gvB (setCell b i (some Mark.X)) true).foldl min 1 := by
  rw [gvB]
  simp only [h0, ne_eq, not_true_eq_false, if_false, he, Bool.not_true, Bool.not_false,
    Bool.false_eq_true, if_true, ite_false, dite_eq_ite]
  rw [foldl_guard_eq (fun i => b i = none)
    (fun i => gvB (setCell b i (some Mark.X)) true) min]
  rfl

/-! ### Lower bound for the minimax score

The `-Infinity` sentinel (`-1000`) is always beaten by a real child
value, so the root loop always selects a move when an empty cell
exists. -/

theorem minimax_lower :
    ∀ (fuel : Nat) (b : Board) (depth : Nat) (isMax : Bool),
      -(10 + (depth : Int) + (noneCount b : Int)) ≤ minimax fuel b depth isMax := by
  intro fuel
  induction fuel with
  | zero =>
    intro b depth isMax
    have h1 : (0 : Int) ≤ (depth : Int) := Int.natCast_nonneg _
    have h2 : (0 : Int) ≤ (noneCount b : Int) := Int.natCast_nonneg _
    show -(10 + (depth : Int) + (noneCount b : Int)) ≤ 0
    omega
  | succ fuel ih =>
    intro b depth isMax
    have hd : (0 : Int) ≤ (depth : Int) := Int.natCast_nonneg _
    have hnc : (0 : Int) ≤ (noneCount b : Int) := Int.natCast_nonneg _
    rcases evaluate_cases b with hs | hs | hs
    · rw [minimax_succ_of_ne fuel depth isMax (by rw [hs]; norm_num)]
      rw [hs]
      norm_num
      omega
    · rw [minimax_succ_of_ne fuel depth isMax (by rw [hs]; norm_num)]
      rw [hs]
      norm_num
      omega
    · by_cases he : hasEmpty b
      · have hchild : ∀ i : Fin 9, b i = none → ∀ m : Mark,
            -(10 + (depth : Int) + (noneCount b : Int)) ≤
              minimax fuel (setCell b i (some m)) (depth + 1) (!isMax) := by
          intro i hi m
          refine le_trans ?_ (ih (setCell b i (some m)) (depth + 1) (!isMax))
          have hlt : noneCount (setCell b i (some m)) < noneCount b :=
            noneCount_setCell_lt m hi
          have : ((noneCount (setCell b i (some m)) : Int)) < (noneCount b : Int) := by
            exact_mod_cast hlt
          push_cast
          omega
        obtain ⟨i0, hi0⟩ := hasEmpty_iff.mp he
        cases isMax with
        | true =>
          rw [minimax_succ_max fuel depth hs he]
          rw [le_foldl_max_iff]
          refine Or.inr ⟨minimax fuel (setCell b i0 (some Mark.O)) (depth + 1) false, ?_, ?_⟩
          · exact List.mem_map_of_mem _ (mem_availableMoves.mpr hi0)
          · simpa using hchild i0 hi0 Mark.O
        | false =>
          rw [minimax_succ_min fuel depth hs he]
          rw [le_foldl_min_iff]
          constructor
          · omega
          · intro x hx
            obtain ⟨i, hi, rfl⟩ := List.mem_map.mp hx
            simpa using hchild i (mem_availableMoves.mp hi) Mark.X
      · rw [minimax_succ_of_full fuel depth isMax hs (Bool.not_eq_true _ ▸ by simpa using he)]
        omega

theorem foldl_max_le_iff (c : Int) :
    ∀ (l : List Int) (init : Int),
      l.foldl max init ≤ c ↔ init ≤ c ∧ ∀ x ∈ l, x ≤ c := by
  intro l
  induction l with
  | nil => intro init; simp
  | cons x xs ih =>
    intro init
    rw [List.foldl_cons, ih]
    constructor
    · rintro ⟨h, hall⟩
      rcases max_le_iff.mp h with ⟨h1, h2⟩
      exact ⟨h1, fun y hy => by
        rcases List.mem_cons.mp hy with rfl | hy'
        · exact h2
        · exact hall y hy'⟩
    · rintro ⟨h, hall⟩
      exact ⟨max_le_iff.mpr ⟨h, hall x (by simp)⟩, fun y hy => hall y (by simp [hy])⟩

theorem foldl_min_le_iff (c : Int) :
    ∀ (l : List Int) (init : Int),
      l.foldl min init ≤ c ↔ init ≤ c ∨ ∃ x ∈ l, x ≤ c := by
  intro l
  induction l with
  | nil => intro init; simp
  | cons x xs ih =>
    intro init
    rw [List.foldl_cons, ih]
    constructor
    · rintro (h | ⟨y, hy, hc⟩)
      · rcases min_le_iff.mp h with h' | h'
        · exact Or.inl h'
        · exact Or.inr ⟨x, by simp, h'⟩
      · exact Or.inr ⟨y, by simp [hy], hc⟩
    · rintro (h | ⟨y, hy, hc⟩)
      · exact Or.inl (min_le_iff.mpr (Or.inl h))
      · rcases List.mem_cons.mp hy with rfl | hy'
        · exact Or.inl (min_le_iff.mpr (Or.inr hc))
        · exact Or.inr ⟨y, hy', hc⟩

theorem sign_bounds (k : Int) : -1 ≤ Int.sign k ∧ Int.sign k ≤ 1 := by
  rcases Int.lt_trichotomy k 0 with h | h | h
  · rw [Int.sign_eq_neg_one_of_neg h]; omega
  · rw [h]; simp
  · rw [Int.sign_eq_one_of_pos h]; omega

theorem gvB_bounds :
    ∀ (n : Nat) (b : Board) (isMax : Bool), noneCount b ≤ n →
      -1 ≤ gvB b isMax ∧ gvB b isMax ≤ 1 := by
  intro n
  induction n with
  | zero =>
    intro b isMax hn
    have he : hasEmpty b = false := by
      by_contra h
      have := noneCount_pos (by simpa using Bool.not_eq_false _ ▸ h)
      omega
    by_cases hs : evaluate b = 0
    · rw [gvB_of_full isMax hs he]; omega
    · rw [gvB_of_ne isMax hs]; exact sign_bounds _
  | succ n ih =>
    intro b isMax hn
    by_cases hs : evaluate b = 0
    · by_cases he : hasEmpty b
      · have hchild : ∀ i : Fin 9, b i = none → ∀ (m : Mark) (mx : Bool),
            -1 ≤ gvB (setCell b i (some m)) mx ∧ gvB (setCell b i (some m)) mx ≤ 1 := by
          intro i hi m mx
          refine ih (setCell b i (some m)) mx ?_
          have := noneCount_setCell_lt m hi
          omega
        cases isMax with
        | true =>
          rw [gvB_max hs he]
          constructor
          · rw [le_foldl_max_iff]; exact Or.inl (by norm_num)
          · rw [foldl_max_le_iff]
            refine ⟨by norm_num, fun x hx => ?_⟩
            obtain ⟨i, hi, rfl⟩ := List.mem_map.mp hx
            exact (hchild i (mem_availableMoves.mp hi) Mark.O false).2
        | false =>
          rw [gvB_min hs he]
          constructor
          · rw [le_foldl_min_iff]
            refine ⟨by norm_num, fun x hx => ?_⟩
            obtain ⟨i, hi, rfl⟩ := List.mem_map.mp hx
            exact (hchild i (mem_availableMoves.mp hi) Mark.X true).1
          · rw [foldl_min_le_iff]; exact Or.inl (by norm_num)
      · rw [gvB_of_full isMax hs (by simpa using he)]; omega
    · rw [gvB_of_ne isMax hs]; exact sign_bounds _

/-! ### The sign of a minimax score equals the coarse game value

For a search obeying the game's bounds (fuel exceeds the number of empty
cells, and `depth` plus that number stays within the 9 plies of the
game), the depth-shaped minimax score is nonnegative exactly when the
coarse game value is. -/

theorem minimax_sign :
    ∀ (fuel : Nat) (b : Board) (depth : Nat) (isMax : Bool),
      noneCount b < fuel → depth + noneCount b ≤ 9 →
      (0 ≤ minimax fuel b depth isMax ↔ 0 ≤ gvB b isMax) := by
  intro fuel
  induction fuel with
  | zero => intro b depth isMax hf _; omega
  | succ fuel ih =>
    intro b depth isMax hf hd
    rcases evaluate_cases b with hs | hs | hs
    · rw [minimax_succ_of_ne fuel depth isMax (by rw [hs]; norm_num), hs,
        gvB_of_ne isMax (by rw [hs]; norm_num), hs]
      have h9 : (depth : Int) ≤ 9 := by
        have : ((depth + noneCount b : Nat) : Int) ≤ 9 := by exact_mod_cast hd
        push_cast at this
        have := Int.natCast_nonneg (noneCount b)
        omega
      have hsgn : Int.sign (10 : Int) = 1 := rfl
      rw [hsgn]
      norm_num
      omega
    · rw [minimax_succ_of_ne fuel depth isMax (by rw [hs]; norm_num), hs,
        gvB_of_ne isMax (by rw [hs]; norm_num), hs]
      have h9 : (depth : Int) ≤ 9 := by
        have : ((depth + noneCount b : Nat) : Int) ≤ 9 := by exact_mod_cast hd
        push_cast at this
        have := Int.natCast_nonneg (noneCount b)
        omega
      have hsgn : Int.sign (-10 : Int) = -1 := rfl
      rw [hsgn]
      norm_num
      omega
    · by_cases he : hasEmpty b
      · have hchild : ∀ i : Fin 9, b i = none → ∀ (m : Mark) (mx : Bool),
            (0 ≤ minimax fuel (setCell b i (some m)) (depth + 1) mx ↔
              0 ≤ gvB (setCell b i (some m)) mx) := by
          intro i hi m mx
          have hlt := noneCount_setCell_lt m hi
          have h1 : noneCount (setCell b i (some m)) < fuel := by omega
          have h2 : (depth + 1) + noneCount (setCell b i (some m)) ≤ 9 := by
            have h0 := noneCount_pos he
            omega
          exact ih (setCell b i (some m)) (depth + 1) mx h1 h2
        cases isMax with
        | true =>
          rw [minimax_succ_max fuel depth hs he, gvB_max hs he,
            le_foldl_max_iff, le_foldl_max_iff]
          constructor
          · rintro (h | ⟨x, hx, hc⟩)
            · norm_num at h
            · obtain ⟨i, hi, rfl⟩ := List.mem_map.mp hx
              exact Or.inr ⟨gvB (setCell b i (some Mark.O)) false,
                List.mem_map_of_mem _ hi,
                (hchild i (mem_availableMoves.mp hi) Mark.O false).mp hc⟩
          · rintro (h | ⟨x, hx, hc⟩)
            · norm_num at h
            · obtain ⟨i, hi, rfl⟩ := List.mem_map.mp hx
              exact Or.inr ⟨minimax fuel (setCell b i (some Mark.O)) (depth + 1) false,
                List.mem_map_of_mem _ hi,
                (hchild i (mem_availableMoves.mp hi) Mark.O false).mpr hc⟩
        | false =>
          rw [minimax_succ_min fuel depth hs he, gvB_min hs he,
            le_foldl_min_iff, le_foldl_min_iff]
          constructor
          · rintro ⟨_, hall⟩
            refine ⟨by norm_num, fun x hx => ?_⟩
            obtain ⟨i, hi, rfl⟩ := List.mem_map.mp hx
            exact (hchild i (mem_availableMoves.mp hi) Mark.X true).mp
              (hall _ (List.mem_map_of_mem _ hi))
          · rintro ⟨_, hall⟩
            refine ⟨by norm_num, fun x hx => ?_⟩
            obtain ⟨i, hi, rfl⟩ := List.mem_map.mp hx
            exact (hchild i (mem_availableMoves.mp hi) Mark.X true).mpr
              (hall _ (List.mem_map_of_mem _ hi))
      · rw [minimax_succ_of_full fuel depth isMax hs (by simpa using he),
          gvB_of_full isMax hs (by simpa using he)]

theorem chooseStep_eq (b : Board) (acc : Int × Int) (i : Fin 9) :
    chooseStep b acc i =
      if b i = none then
        if valAt b i > acc.1 then (valAt b i, (i.val : Int)) else acc
      else acc := rfl

theorem valAt_gt_sentinel (b : Board) (i : Fin 9) : -1000 < valAt b i := by
  have h := minimax_lower 9 (setCell b i (some Mark.O)) 0 false
  have h9 := noneCount_le_nine (setCell b i (some Mark.O))
  unfold valAt
  have : ((noneCount (setCell b i (some Mark.O)) : Int)) ≤ 9 := by exact_mod_cast h9
  omega

theorem chooseFold_from_best (b : Board) :
    ∀ (l : List (Fin 9)) (m0 : Fin 9), b m0 = none → (∀ i ∈ l, m0 < i) →
      l.Pairwise (· < ·) →
      ∃ m : Fin 9, b m = none ∧ (m = m0 ∨ m ∈ l) ∧
        l.foldl (chooseStep b) (valAt b m0, (m0.val : Int)) = (valAt b m, (m.val : Int)) ∧
        valAt b m0 ≤ valAt b m ∧
        (∀ i ∈ l, b i = none → valAt b i ≤ valAt b m) ∧
        (m ≠ m0 → valAt b m0 < valAt b m) ∧
        (∀ i ∈ l, b i = none → i < m → valAt b i < valAt b m) := by
  intro l
  induction l with
  | nil =>
    intro m0 hm0 _ _
    exact ⟨m0, hm0, Or.inl rfl, rfl, le_rfl, by simp, fun h => absurd rfl h, by simp⟩
  | cons i rest ih =>
    intro m0 hm0 hlt hpw
    have hm0i : m0 < i := hlt i (by simp)
    have hrest_gt : ∀ j ∈ rest, i < j := fun j hj => (List.pairwise_cons.mp hpw).1 j hj
    have hrest_pw : rest.Pairwise (· < ·) := (List.pairwise_cons.mp hpw).2
    rw [List.foldl_cons, chooseStep_eq]
    by_cases hbi : b i = none
    · rw [if_pos hbi]
      by_cases hgt : valAt b i > valAt b m0
      · rw [if_pos hgt]
        obtain ⟨m, hmn, hmem, heq, hle0, hall, hne, hstrict⟩ :=
          ih i hbi hrest_gt hrest_pw
        have hm_gt_m0 : m0 < m := by
          rcases hmem with rfl | hmem'
          · exact hm0i
          · exact lt_trans hm0i (hrest_gt m hmem')
        refine ⟨m, hmn, Or.inr (List.mem_cons.mpr hmem), heq,
          le_of_lt (lt_of_lt_of_le hgt hle0), ?_, fun _ => lt_of_lt_of_le hgt hle0, ?_⟩
        · intro j hj hjn
          rcases List.mem_cons.mp hj with rfl | hj'
          · exact hle0
          · exact hall j hj' hjn
        · intro j hj hjn hjm
          rcases List.mem_cons.mp hj with rfl | hj'
          · exact lt_of_le_of_lt le_rfl (hne (by rintro rfl; exact absurd hjm (lt_irrefl _)))
          · exact hstrict j hj' hjn hjm
      · rw [if_neg hgt]
        push_neg at hgt
        obtain ⟨m, hmn, hmem, heq, hle0, hall, hne, hstrict⟩ :=
          ih m0 hm0 (fun j hj => lt_trans hm0i (hrest_gt j hj)) hrest_pw
        refine ⟨m, hmn, hmem.imp id (List.mem_cons_of_mem _), heq, hle0, ?_, hne, ?_⟩
        · intro j hj hjn
          rcases List.mem_cons.mp hj with rfl | hj'
          · exact le_trans hgt hle0
          · exact hall j hj' hjn
        · intro j hj hjn hjm
          rcases List.mem_cons.mp hj with rfl | hj'
          · have hmne : m ≠ m0 := by
              rintro rfl
              exact absurd (lt_trans hjm hm0i) (lt_irrefl _)
            exact lt_of_le_of_lt hgt (hne hmne)
          · exact hstrict j hj' hjn hjm
    · rw [if_neg hbi]
      obtain ⟨m, hmn, hmem, heq, hle0, hall, hne, hstrict⟩ :=
        ih m0 hm0 (fun j hj => lt_trans hm0i (hrest_gt j hj)) hrest_pw
      refine ⟨m, hmn, hmem.imp id (List.mem_cons_of_mem _), heq, hle0, ?_, hne, ?_⟩
      · intro j hj hjn
        rcases List.mem_cons.mp hj with rfl | hj'
        · exact absurd hjn hbi
        · exact hall j hj' hjn
      · intro j hj hjn hjm
        rcases List.mem_cons.mp hj with rfl | hj'
        · exact absurd hjn hbi
        · exact hstrict j hj' hjn hjm

theorem chooseFold_from_init (b : Board) :
    ∀ (l : List (Fin 9)), l.Pairwise (· < ·) →
      ((∀ i ∈ l, b i ≠ none) ∧ l.foldl (chooseStep b) (-1000, -1) = (-1000, -1)) ∨
      ∃ m : Fin 9, m ∈ l ∧ b m = none ∧
        l.foldl (chooseStep b) (-1000, -1) = (valAt b m, (m.val : Int)) ∧
        (∀ i ∈ l, b i = none → valAt b i ≤ valAt b m) ∧
        (∀ i ∈ l, b i = none → i < m → valAt b i < valAt b m) := by
  intro l
  induction l with
  | nil => intro _; exact Or.inl ⟨by simp, rfl⟩
  | cons i rest ih =>
    intro hpw
    have hrest_gt : ∀ j ∈ rest, i < j := fun j hj => (List.pairwise_cons.mp hpw).1 j hj
    have hrest_pw : rest.Pairwise (· < ·) := (List.pairwise_cons.mp hpw).2
    rw [List.foldl_cons, chooseStep_eq]
    by_cases hbi : b i = none
    · rw [if_pos hbi, if_pos (by simpa using valAt_gt_sentinel b i)]
      obtain ⟨m, hmn, hmem, heq, hle0, hall, hne, hstrict⟩ :=
        chooseFold_from_best b rest i hbi hrest_gt hrest_pw
      refine Or.inr ⟨m, List.mem_cons.mpr hmem, hmn, heq, ?_, ?_⟩
      · intro j hj hjn
        rcases List.mem_cons.mp hj with rfl | hj'
        · exact hle0
        · exact hall j hj' hjn
      · intro j hj hjn hjm
        rcases List.mem_cons.mp hj with rfl | hj'
        · exact hne (by rintro rfl; exact absurd hjm (lt_irrefl _))
        · exact hstrict j hj' hjn hjm
    · rw [if_neg hbi]
      rcases ih hrest_pw with ⟨hall, heq⟩ | ⟨m, hmem, hmn, heq, hall, hstrict⟩
      · refine Or.inl ⟨fun j hj => ?_, heq⟩
        rcases List.mem_cons.mp hj with rfl | hj'
        · exact hbi
        · exact hall j hj'
      · refine Or.inr ⟨m, List.mem_cons_of_mem _ hmem, hmn, heq, ?_, ?_⟩
        · intro j hj hjn
          rcases List.mem_cons.mp hj with rfl | hj'
          · exact absurd hjn hbi
          · exact hall j hj' hjn
        · intro j hj hjn hjm
          rcases List.mem_cons.mp hj with rfl | hj'
          · exact absurd hjn hbi
          · exact hstrict j hj' hjn hjm

/-- When an empty cell exists, the root loop returns the first empty
index whose minimax value is strictly greatest: its value is maximal
among all empty cells, and every earlier empty cell has a strictly
smaller value. -/
theorem chooseMove_spec (b : Board) (h : hasEmpty b = true) :
    ∃ m : Fin 9, b m = none ∧ chooseMove b = (valAt b m, (m.val : Int)) ∧
      (∀ i : Fin 9, b i = none → valAt b i ≤ valAt b m) ∧
      (∀ i : Fin 9, b i = none → i < m → valAt b i < valAt b m) := by
  have hpw : (List.finRange 9).Pairwise (· < ·) := List.pairwise_lt_finRange 9
  rcases chooseFold_from_init b (List.finRange 9) hpw with ⟨hall, _⟩ | h'
  · obtain ⟨i, hi⟩ := hasEmpty_iff.mp h
    exact absurd hi (hall i (List.mem_finRange i))
  · obtain ⟨m, _, hmn, heq, hall, hstrict⟩ := h'
    exact ⟨m, hmn, heq, fun i hi => hall i (List.mem_finRange i) hi,
      fun i hi him => hstrict i (List.mem_finRange i) hi him⟩

/-! ### Lines and single moves -/

theorem lineWin_eq_some_iff {c : Board} {l : Fin 9 × Fin 9 × Fin 9} {m : Mark} :
    lineWin c l = some m ↔ c l.1 = some m ∧ c l.2.1 = some m ∧ c l.2.2 = some m := by
  unfold lineWin
  cases hc1 : c l.1 with
  | none => simp
  | some m0 =>
    show (if c l.2.1 = some m0 ∧ c l.2.2 = some m0 then some m0 else none) = some m ↔
      some m0 = some m ∧ c l.2.1 = some m ∧ c l.2.2 = some m
    by_cases hcond : c l.2.1 = some m0 ∧ c l.2.2 = some m0
    · rw [if_pos hcond]
      constructor
      · intro h
        cases Option.some.inj h
        exact ⟨rfl, hcond.1, hcond.2⟩
      · rintro ⟨h, _, _⟩
        exact h
    · rw [if_neg hcond]
      constructor
      · intro h
        cases h
      · rintro ⟨h, hb, hc⟩
        cases Option.some.inj h
        exact absurd ⟨hb, hc⟩ hcond

/-- A move on a board with no completed line can complete a line only
for the mark just played. -/
theorem newline_eq {b : Board} {i : Fin 9} {mk : Mark}
    (hb : firstLineWinner b = none) {m' : Mark}
    (h : firstLineWinner (setCell b i (some mk)) = some m') : m' = mk := by
  obtain ⟨l, hl, hlw⟩ := List.exists_of_findSome?_eq_some h
  rw [lineWin_eq_some_iff] at hlw
  by_contra hne
  have fact : ∀ j, setCell b i (some mk) j = some m' → b j = some m' := by
    intro j hj
    by_cases hji : j = i
    · subst hji
      rw [setCell_same] at hj
      exact absurd (Option.some.inj hj).symm hne
    · rwa [setCell_other _ _ _ hji] at hj
  have hlb : lineWin b l = some m' :=
    lineWin_eq_some_iff.mpr ⟨fact _ hlw.1, fact _ hlw.2.1, fact _ hlw.2.2⟩
  have := List.findSome?_eq_none_iff.mp hb l hl
  rw [this] at hlb
  cases hlb

theorem evaluateWinner_draw_iff {b : Board} :
    evaluateWinner b = Outcome.draw ↔ firstLineWinner b = none ∧ hasEmpty b = false := by
  unfold evaluateWinner
  match h : firstLineWinner b with
  | some m' => simp
  | none => by_cases he : hasEmpty b <;> simp [he]

/-! ### Safety of optimal play -/

theorem gvB_nonneg_no_xwin {b : Board} {isMax : Bool} (h : 0 ≤ gvB b isMax) :
    evaluateWinner b ≠ Outcome.win Mark.X := by
  intro hw
  have hfl := evaluateWinner_win_iff.mp hw
  have hs := evaluate_of_xwin hfl
  rw [gvB_of_ne isMax (by rw [hs]; norm_num), hs] at h
  have : Int.sign (-10 : Int) = -1 := rfl
  omega

theorem gvB_xstep {b : Board} {i : Fin 9} (hinv : 0 ≤ gvB b false)
    (hip : evaluateWinner b = Outcome.inProgress) (hi : b i = none) :
    0 ≤ gvB (setCell b i (some Mark.X)) true := by
  obtain ⟨hfl, he⟩ := evaluateWinner_inProgress_iff.mp hip
  have hs : evaluate b = 0 := evaluate_eq_zero_iff.mpr hfl
  rw [gvB_min hs he, le_foldl_min_iff] at hinv
  exact hinv.2 _ (List.mem_map_of_mem _ (mem_availableMoves.mpr hi))

theorem applyMoveO_fin (b : Board) (m : Fin 9) :
    applyMoveO b ((m.val : Int)) = setCell b m (some Mark.O) := by
  unfold applyMoveO
  rw [dif_pos ⟨by exact_mod_cast Nat.zero_le _, by exact_mod_cast m.isLt⟩]
  have h : (⟨((m.val : Int)).toNat, by omega⟩ : Fin 9) = m := Fin.ext (Int.toNat_natCast _)
  rw [h]

theorem gvB_ostep {c : Board} (hinv : 0 ≤ gvB c true)
    (hip : evaluateWinner c = Outcome.inProgress) :
    0 ≤ gvB (oTurn c) false := by
  obtain ⟨hfl, he⟩ := evaluateWinner_inProgress_iff.mp hip
  have hs : evaluate c = 0 := evaluate_eq_zero_iff.mpr hfl
  obtain ⟨m, hmn, heq, hall, _⟩ := chooseMove_spec c he
  have signAt : ∀ j : Fin 9, c j = none →
      (0 ≤ valAt c j ↔ 0 ≤ gvB (setCell c j (some Mark.O)) false) := by
    intro j hj
    refine minimax_sign 9 (setCell c j (some Mark.O)) 0 false ?_ ?_
    · have h1 := noneCount_setCell_lt Mark.O hj
      have h2 := noneCount_le_nine c
      omega
    · have := noneCount_le_nine (setCell c j (some Mark.O))
      omega
  rw [gvB_max hs he, le_foldl_max_iff] at hinv
  rcases hinv with h | ⟨x, hx, hc⟩
  · norm_num at h
  · obtain ⟨j, hj, rfl⟩ := List.mem_map.mp hx
    have hj' := mem_availableMoves.mp hj
    have hvj : 0 ≤ valAt c j := (signAt j hj').mpr hc
    have hvm : 0 ≤ valAt c m := le_trans hvj (hall j hj')
    have hgm : 0 ≤ gvB (setCell c m (some Mark.O)) false := (signAt m hmn).mp hvm
    unfold oTurn
    rw [if_pos hip, heq]
    show 0 ≤ gvB (applyMoveO c ((m.val : Int))) false
    rw [applyMoveO_fin]
    exact hgm

theorem gvB_terminal_flip {c : Board} (hinv : 0 ≤ gvB c true)
    (hnp : evaluateWinner c ≠ Outcome.inProgress) : 0 ≤ gvB c false := by
  by_cases hs : evaluate c = 0
  · have hfl : firstLineWinner c = none := evaluate_eq_zero_iff.mp hs
    have he : hasEmpty c = false := by
      by_contra h
      exact hnp (evaluateWinner_inProgress_iff.mpr ⟨hfl, by simpa using Bool.not_eq_false _ ▸ h⟩)
    rw [gvB_of_full false hs he]
  · rw [gvB_of_ne true hs] at hinv
    rw [gvB_of_ne false hs]
    exact hinv

/-- The core safety induction: if the coarse game value of the current
board (opponent to move) is nonnegative, no sequence of opposing moves
against the optimal strategy ever reaches a win for the opposing mark. -/
theorem playX_safe :
    ∀ (xs : List (Fin 9)) (b : Board), 0 ≤ gvB b false →
      evaluateWinner (playX b xs) ≠ Outcome.win Mark.X := by
  intro xs
  induction xs with
  | nil => intro b hinv; exact gvB_nonneg_no_xwin hinv
  | cons i rest ih =>
    intro b hinv
    unfold playX
    by_cases hip : evaluateWinner b = Outcome.inProgress
    · rw [if_pos hip]
      by_cases hbi : b i = none
      · rw [if_pos hbi]
        have hc := gvB_xstep hinv hip hbi
        by_cases hcp : evaluateWinner (setCell b i (some Mark.X)) = Outcome.inProgress
        · exact ih _ (gvB_ostep hc hcp)
        · have : oTurn (setCell b i (some Mark.X)) = setCell b i (some Mark.X) := by
            unfold oTurn
            rw [if_neg hcp]
          rw [this]
          exact ih _ (gvB_terminal_flip hc hcp)
      · rw [if_neg hbi]
        exact ih b hinv
    · rw [if_neg hip]
      exact gvB_nonneg_no_xwin hinv

theorem beqCell_eq_true_iff {x y : Cell} : beqCell x y = true ↔ x = y := by
  rcases x with _ | mx <;> rcases y with _ | my
  · simp [beqCell]
  · cases my <;> simp [beqCell]
  · cases mx <;> simp [beqCell]
  · cases mx <;> cases my <;> simp [beqCell]

theorem getc_listOf (b : Board) (j : Fin 9) : getc (listOf b) j.val = b j := by
  fin_cases j <;> rfl

theorem setc_listOf (b : Board) (j : Fin 9) (v : Cell) :
    setc (listOf b) j.val v = listOf (setCell b j v) := by
  fin_cases j <;> rfl

theorem forceB_id : ∀ l : List Cell, forceB l = l := by
  intro l
  induction l with
  | nil => rfl
  | cons c rest ih =>
    rcases c with _ | m
    · rw [forceB, ih]
    · cases m <;> rw [forceB, ih]

theorem fullL_listOf_iff {b : Board} : fullL (listOf b) = true ↔ hasEmpty b = false := by
  rw [hasEmpty_false_iff]
  constructor
  · intro h i
    have hm : b i ∈ listOf b := by fin_cases i <;> simp [listOf]
    have := List.all_eq_true.mp h (b i) hm
    intro hnone
    rw [hnone] at this
    simp [beqCell] at this
  · intro h
    apply List.all_eq_true.mpr
    intro c hc
    have : ∃ i : Fin 9, c = b i := by
      simp only [listOf, List.mem_cons, List.not_mem_nil, or_false] at hc
      rcases hc with h' | h' | h' | h' | h' | h' | h' | h' | h'
      · exact ⟨0, h'⟩
      · exact ⟨1, h'⟩
      · exact ⟨2, h'⟩
      · exact ⟨3, h'⟩
      · exact ⟨4, h'⟩
      · exact ⟨5, h'⟩
      · exact ⟨6, h'⟩
      · exact ⟨7, h'⟩
      · exact ⟨8, h'⟩
    obtain ⟨i, rfl⟩ := this
    have hne := h i
    rcases hbi : b i with _ | m
    · exact absurd hbi hne
    · cases m <;> simp [beqCell]

theorem lineVal_listOf (b : Board) (a c d : Fin 9) :
    lineVal (listOf b) a.val c.val d.val = lineWin b (a, c, d) := by
  unfold lineVal lineWin
  rw [getc_listOf, getc_listOf, getc_listOf]
  cases b a with
  | none => rfl
  | some m =>
    show (if beqCell (b c) (some m) && beqCell (b d) (some m) then some m else none) =
      (if b c = some m ∧ b d = some m then some m else none)
    by_cases h : b c = some m ∧ b d = some m
    · rw [if_pos (by rw [Bool.and_eq_true, beqCell_eq_true_iff, beqCell_eq_true_iff]; exact h),
        if_pos h]
    · rw [if_neg (by rw [Bool.and_eq_true, beqCell_eq_true_iff, beqCell_eq_true_iff]; exact h),
        if_neg h]

theorem lw_listOf (b : Board) : lw (listOf b) = firstLineWinner b := by
  have e1 : lineVal (listOf b) 0 1 2 = lineWin b (0, 1, 2) := lineVal_listOf b 0 1 2
  have e2 : lineVal (listOf b) 3 4 5 = lineWin b (3, 4, 5) := lineVal_listOf b 3 4 5
  have e3 : lineVal (listOf b) 6 7 8 = lineWin b (6, 7, 8) := lineVal_listOf b 6 7 8
  have e4 : lineVal (listOf b) 0 3 6 = lineWin b (0, 3, 6) := lineVal_listOf b 0 3 6
  have e5 : lineVal (listOf b) 1 4 7 = lineWin b (1, 4, 7) := lineVal_listOf b 1 4 7
  have e6 : lineVal (listOf b) 2 5 8 = lineWin b (2, 5, 8) := lineVal_listOf b 2 5 8
  have e7 : lineVal (listOf b) 0 4 8 = lineWin b (0, 4, 8) := lineVal_listOf b 0 4 8
  have e8 : lineVal (listOf b) 2 4 6 = lineWin b (2, 4, 6) := lineVal_listOf b 2 4 6
  unfold lw firstLineWinner winningLines
  rw [e1, e2, e3, e4, e5, e6, e7, e8]
  simp only [List.findSome?]
  cases lineWin b (0, 1, 2) <;> cases lineWin b (3, 4, 5) <;> cases lineWin b (6, 7, 8) <;>
    cases lineWin b (0, 3, 6) <;> cases lineWin b (1, 4, 7) <;> cases lineWin b (2, 5, 8) <;>
    cases lineWin b (0, 4, 8) <;> cases lineWin b (2, 4, 6) <;> rfl

/-! ### Soundness of the strategy certificate -/

theorem mem_digits (i : Fin 9) : i.val ∈ ([0, 1, 2, 3, 4, 5, 6, 7, 8] : List Nat) := by
  fin_cases i <;> simp

theorem gvB_ge_child {c : Board} {j : Fin 9} (hs : evaluate c = 0)
    (he : hasEmpty c = true) (hj : c j = none) :
    gvB (setCell c j (some Mark.O)) false ≤ gvB c true := by
  rw [gvB_max hs he]
  exact (le_foldl_max_iff _ _ _).mpr
    (Or.inr ⟨_, List.mem_map_of_mem _ (mem_availableMoves.mpr hj), le_rfl⟩)

theorem certCheck_sound :
    ∀ (fuel : Nat) (t : OStrat) (b : Board),
      certCheck fuel t (listOf b) = true →
      evaluateWinner b = Outcome.inProgress →
      0 ≤ gvB b false := by
  intro fuel
  induction fuel with
  | zero =>
    intro t b h _
    rw [certCheck] at h
    cases h
  | succ fuel ih =>
    intro t b hchk hip
    obtain ⟨hfl, he⟩ := evaluateWinner_inProgress_iff.mp hip
    have hs : evaluate b = 0 := evaluate_eq_zero_iff.mpr hfl
    rw [gvB_min hs he, le_foldl_min_iff]
    refine ⟨by norm_num, fun x hx => ?_⟩
    obtain ⟨i, hiav, rfl⟩ := List.mem_map.mp hx
    have hbi := mem_availableMoves.mp hiav
    obtain ⟨entries⟩ := t
    rw [certCheck] at hchk
    have hp := List.all_eq_true.mp hchk i.val (mem_digits i)
    simp only at hp
    rw [getc_listOf, hbi] at hp
    rw [if_pos (show beqCell none none = true from rfl)] at hp
    rw [setc_listOf, forceB_id, lw_listOf] at hp
    set cB := setCell b i (some Mark.X) with hcB
    -- the board after X's move: no line for 'O' can appear, so analyze
    have hsX : evaluate cB = 0 ∨ firstLineWinner cB = some Mark.X := by
      rcases hlw : firstLineWinner cB with _ | m'
      · exact Or.inl (evaluate_eq_zero_iff.mpr hlw)
      · exact Or.inr (by rw [newline_eq hfl hlw])
    rcases hlw : firstLineWinner cB with _ | m'
    · rw [hlw] at hp
      simp only at hp
      by_cases hfull : fullL (listOf cB) = true
      · rw [if_pos hfull] at hp
        rw [gvB_of_full true (evaluate_eq_zero_iff.mpr hlw) (fullL_listOf_iff.mp hfull)]
      · rw [if_neg hfull] at hp
        have heB : hasEmpty cB = true := by
          rcases h' : hasEmpty cB with _ | _
          · exact absurd (fullL_listOf_iff.mpr h') hfull
          · rfl
        have hsB : evaluate cB = 0 := evaluate_eq_zero_iff.mpr hlw
        rcases hrep : findReply i.val entries with _ | ⟨j, sub⟩
        · rw [hrep] at hp
          cases hp
        · rw [hrep] at hp
          simp only at hp
          by_cases hguard : (Nat.blt j 9 && beqCell (getc (listOf cB) j) none) = true
          · rw [if_pos hguard] at hp
            rw [Bool.and_eq_true] at hguard
            have hj9 : j < 9 := Nat.blt_eq.mp hguard.1
            set jF : Fin 9 := ⟨j, hj9⟩ with hjF
            have hjval : j = jF.val := rfl
            have hjempty : cB jF = none := by
              have := hguard.2
              rw [hjval, getc_listOf] at this
              exact beqCell_eq_true_iff.mp this
            rw [hjval, setc_listOf, forceB_id, lw_listOf] at hp
            set dB := setCell cB jF (some Mark.O) with hdB
            have step : 0 ≤ gvB dB false → 0 ≤ gvB cB true := fun h0 =>
              le_trans h0 (gvB_ge_child hsB heB hjempty)
            rcases hlwd : firstLineWinner dB with _ | m2
            · rw [hlwd] at hp
              simp only at hp
              by_cases hfd : fullL (listOf dB) = true
              · rw [if_pos hfd] at hp
                exact step (by
                  rw [gvB_of_full false (evaluate_eq_zero_iff.mpr hlwd)
                    (fullL_listOf_iff.mp hfd)])
              · rw [if_neg hfd] at hp
                have heD : hasEmpty dB = true := by
                  rcases h' : hasEmpty dB with _ | _
                  · exact absurd (fullL_listOf_iff.mpr h') hfd
                  · rfl
                exact step (ih sub dB hp
                  (evaluateWinner_inProgress_iff.mpr ⟨hlwd, heD⟩))
            · rw [hlwd] at hp
              have hm2 : m2 = Mark.O := newline_eq hlw hlwd
              subst hm2
              exact step (by
                rw [gvB_of_ne false (by rw [evaluate_of_owin hlwd]; norm_num),
                  evaluate_of_owin hlwd]
                norm_num)
          · rw [if_neg hguard] at hp
            cases hp
    · rw [hlw] at hp
      cases hp

/-! ### Claim C1: the optimal strategy never loses -/

set_option maxRecDepth 10000 in
theorem gvB_empty_nonneg : 0 ≤ gvB emptyBoard false :=
  certCheck_sound 9 oCert emptyBoard (by decide) (by decide)

/-- C1 (amended): for every game played with the optimal (minimax)
strategy choosing the automated mark's moves, starting from the initial
empty board with the opposing mark to move, and for every sequence of
opposing moves, the outcome is never a win for the opposing mark. -/
theorem minimax_never_loses_from_empty :
    ∀ xs : List (Fin 9), evaluateWinner (playX emptyBoard xs) ≠ Outcome.win Mark.X :=
  fun xs => playX_safe xs emptyBoard gvB_empty_nonneg

theorem minimax_never_loses_from_empty_witness :
    evaluateWinner (playX emptyBoard [4]) ≠ Outcome.win Mark.X :=
  minimax_never_loses_from_empty [4]

/-- C1 as stated is false: `cexBoard` is reachable by legal alternating
play, yet with the optimal strategy playing `'O'` from it, the opposing
mark `'X'` wins (here after the single further move 6). -/
theorem minimax_loses_from_reachable_board :
    buildB [0, 1, 2, 3, 4] (emptyBoard, Mark.X) = some (cexBoard, Mark.O) ∧
      evaluateWinner (playX (oTurn cexBoard) [6]) = Outcome.win Mark.X := by
  constructor
  · have h : cexBoard =
        setCell (setCell (setCell (setCell (setCell emptyBoard 0 (some Mark.X))
          1 (some Mark.O)) 2 (some Mark.X)) 3 (some Mark.O)) 4 (some Mark.X) := by
      funext i
      fin_cases i <;> rfl
    rw [h]
    rfl
  · decide

/-! ### Case analysis of `updateGameState` and further `setCell` facts -/

theorem setCell_setCell (b : Board) (i : Fin 9) (v w : Cell) :
    setCell (setCell b i v) i w = setCell b i w := by
  funext j
  by_cases h : j = i <;> simp [setCell, h]

theorem setCell_none_self {b : Board} {i : Fin 9} (h : b i = none) :
    setCell b i none = b := by
  funext j
  by_cases hj : j = i
  · subst hj; simp [setCell, h]
  · simp [setCell, hj]

theorem updateGameState_success (s : GameState) (i : Fin 9)
    (hbi : s.board i = none) (hw : s.winner = Outcome.inProgress) :
    updateGameState s i =
      match evaluateWinner (setCell s.board i (some s.currentPlayer)) with
      | Outcome.win m =>
        { s with board := setCell s.board i (some s.currentPlayer),
                 winner := Outcome.win m, scores := bumpScore s.scores m }
      | Outcome.draw =>
        { s with board := setCell s.board i (some s.currentPlayer), winner := Outcome.draw }
      | Outcome.inProgress =>
        { s with board := setCell s.board i (some s.currentPlayer),
                 currentPlayer := otherMark s.currentPlayer } := by
  unfold updateGameState
  rw [if_neg (by simp [hbi, hw])]

theorem updateGameState_inProgress (s : GameState) (i : Fin 9)
    (hbi : s.board i = none) (hw : s.winner = Outcome.inProgress)
    (hev : evaluateWinner (setCell s.board i (some s.currentPlayer)) = Outcome.inProgress) :
    updateGameState s i =
      { s with board := setCell s.board i (some s.currentPlayer),
               currentPlayer := otherMark s.currentPlayer } := by
  rw [updateGameState_success s i hbi hw, hev]

theorem updateGameState_win (s : GameState) (i : Fin 9) (m : Mark)
    (hbi : s.board i = none) (hw : s.winner = Outcome.inProgress)
    (hev : evaluateWinner (setCell s.board i (some s.currentPlayer)) = Outcome.win m) :
    updateGameState s i =
      { s with board := setCell s.board i (some s.currentPlayer),
               winner := Outcome.win m, scores := bumpScore s.scores m } := by
  rw [updateGameState_success s i hbi hw, hev]

theorem updateGameState_draw (s : GameState) (i : Fin 9)
    (hbi : s.board i = none) (hw : s.winner = Outcome.inProgress)
    (hev : evaluateWinner (setCell s.board i (some s.currentPlayer)) = Outcome.draw) :
    updateGameState s i =
      { s with board := setCell s.board i (some s.currentPlayer),
               winner := Outcome.draw } := by
  rw [updateGameState_success s i hbi hw, hev]

theorem updateGameState_noop (s : GameState) (i : Fin 9)
    (h : s.board i ≠ none ∨ s.winner ≠ Outcome.inProgress) :
    updateGameState s i = s := by
  unfold updateGameState
  rw [if_pos h]

theorem foldl_pair_snd_const {α β : Type} (b : β)
    (stepT : (α × β) → Fin 9 → (α × β)) (stepP : α → Fin 9 → α)
    (hstep : ∀ a i, stepT (a, b) i = (stepP a i, b)) :
    ∀ (l : List (Fin 9)) (a : α), l.foldl stepT (a, b) = (l.foldl stepP a, b) := by
  intro l
  induction l with
  | nil => intro a; rfl
  | cons i rest ih =>
    intro a
    rw [List.foldl_cons, List.foldl_cons, hstep, ih]

theorem minimaxT_eq :
    ∀ (fuel : Nat) (b : Board) (depth : Nat) (isMax : Bool),
      minimaxT fuel b depth isMax = (minimax fuel b depth isMax, b) := by
  intro fuel
  induction fuel with
  | zero => intro b depth isMax; rfl
  | succ fuel ih =>
    intro b depth isMax
    rw [minimaxT, minimax]
    by_cases hs : evaluate b ≠ 0
    · rw [if_pos hs, if_pos hs]
    · rw [if_neg hs, if_neg hs]
      by_cases he : !hasEmpty b
      · rw [if_pos he, if_pos he]
      · rw [if_neg he, if_neg he]
        refine foldl_pair_snd_const b _ _ ?_ (List.finRange 9) _
        intro a i
        by_cases hbi : b i = none
        · rw [if_pos hbi, if_pos hbi, ih]
          show (_, setCell (setCell b i _) i none) = _
          rw [setCell_setCell, setCell_none_self hbi]
        · rw [if_neg hbi, if_neg hbi]

theorem chooseMoveT_eq (b : Board) : chooseMoveT b = (chooseMove b, b) := by
  unfold chooseMoveT chooseMove
  refine foldl_pair_snd_const b _ _ ?_ (List.finRange 9) _
  intro a i
  rw [chooseStep_eq]
  by_cases hbi : b i = none
  · rw [if_pos hbi, if_pos hbi, minimaxT_eq]
    show (_, setCell (setCell b i _) i none) = _
    rw [setCell_setCell, setCell_none_self hbi]
    rfl
  · rw [if_neg hbi, if_neg hbi]

/-! ### Validity of the selected move -/

theorem selectMove_valid (b : Board) (difficulty : Difficulty) (r : Nat) :
    selectMove b difficulty r = -1 ∨
      ∃ i : Fin 9, b i = none ∧ selectMove b difficulty r = (i.val : Int) := by
  cases difficulty with
  | hard =>
    rcases chooseFold_from_init b (List.finRange 9) (List.pairwise_lt_finRange 9) with
      ⟨_, heq⟩ | ⟨m, _, hmn, heq, _, _⟩
    · left
      show (chooseMove b).2 = -1
      unfold chooseMove
      rw [heq]
    · right
      exact ⟨m, hmn, by show (chooseMove b).2 = _; unfold chooseMove; rw [heq]⟩
  | easy =>
    rcases hget : (availableMoves b).get? r with _ | i
    · left
      show (match (availableMoves b).get? r with
        | some i => (i.val : Int)
        | none => -1) = -1
      rw [hget]
    · right
      refine ⟨i, mem_availableMoves.mp (List.get?_mem hget), ?_⟩
      show (match (availableMoves b).get? r with
        | some i => (i.val : Int)
        | none => -1) = _
      rw [hget]

theorem applyMoveO_neg_one (b : Board) : applyMoveO b (-1) = b := by
  unfold applyMoveO
  rw [dif_neg (by norm_num)]

theorem makeComputerMove_board (s : GameState) (r : Nat) :
    (makeComputerMove s r).board =
      applyMoveO s.board (selectMove s.board s.difficulty r) := by
  unfold makeComputerMove
  cases hev : evaluateWinner (applyMoveO s.board (selectMove s.board s.difficulty r)) <;>
    simp only [hev]

theorem makeComputerMove_preserves (s : GameState) (r : Nat) (j : Fin 9)
    (hj : s.board j ≠ none) : (makeComputerMove s r).board j = s.board j := by
  rw [makeComputerMove_board]
  rcases selectMove_valid s.board s.difficulty r with h | ⟨i, hin, h⟩
  · rw [h, applyMoveO_neg_one]
  · rw [h, applyMoveO_fin]
    exact setCell_other _ _ _ (by rintro rfl; exact hj hin)

theorem lineWin_eq_none_iff {b : Board} {l : Fin 9 × Fin 9 × Fin 9} :
    lineWin b l = none ↔ ¬ lineAllSame b l := by
  constructor
  · intro h hl
    obtain ⟨m, h1, h2, h3⟩ := hl
    rw [lineWin_eq_some_iff.mpr ⟨h1, h2, h3⟩] at h
    cases h
  · intro h
    rcases hl : lineWin b l with _ | m
    · rfl
    · obtain ⟨h1, h2, h3⟩ := lineWin_eq_some_iff.mp hl
      exact absurd ⟨m, h1, h2, h3⟩ h

theorem findSome_vs_find (b : Board) :
    ∀ ls : List (Fin 9 × Fin 9 × Fin 9),
      ls.findSome? (lineWin b) =
        (ls.find? (fun l => decide (lineAllSame b l))).bind (fun l => b l.1) := by
  intro ls
  induction ls with
  | nil => rfl
  | cons l rest ih =>
    by_cases h : lineAllSame b l
    · obtain ⟨m, h1, h2, h3⟩ := h
      rw [List.findSome?_cons, lineWin_eq_some_iff.mpr ⟨h1, h2, h3⟩,
        List.find?_cons_of_pos _ (by simpa using ⟨m, h1, h2, h3⟩)]
      simp [h1]
    · rw [List.findSome?_cons, lineWin_eq_none_iff.mpr h,
        List.find?_cons_of_neg _ (by simpa using h)]
      exact ih

theorem evaluateWinner_eq_spec (b : Board) : evaluateWinner b = evaluateOutcomeSpec b := by
  unfold evaluateWinner evaluateOutcomeSpec firstLineWinner
  rw [findSome_vs_find]
  cases hf : winningLines.find? (fun l => decide (lineAllSame b l)) with
  | none =>
    show (match (none : Option Mark) with
      | some m => Outcome.win m
      | none => if hasEmpty b then Outcome.inProgress else Outcome.draw) = _
    by_cases he : hasEmpty b
    · obtain ⟨i, hi⟩ := hasEmpty_iff.mp he
      show (if hasEmpty b then Outcome.inProgress else Outcome.draw) = _
      rw [if_pos he, if_neg (fun hall => hall i hi)]
    · have he' : hasEmpty b = false := by simpa using he
      show (if hasEmpty b then Outcome.inProgress else Outcome.draw) = _
      rw [if_neg he, if_pos (hasEmpty_false_iff.mp he')]
  | some l =>
    have hl : lineAllSame b l :=
      of_decide_eq_true (@List.find?_some _ (fun x => decide (lineAllSame b x)) l winningLines hf)
    obtain ⟨m, h1, _, _⟩ := hl
    show (match Option.bind (some l) (fun l => b l.1) with
      | some m => Outcome.win m
      | none => if hasEmpty b then Outcome.inProgress else Outcome.draw) = _
    rw [Option.some_bind, h1]
    simp only [h1]

/-- C2: `evaluateOutcome` returns the mark of the first line, in the
fixed enumeration order (3 rows, 3 columns, 2 diagonals), whose three
cells hold identical non-empty marks; if no line matches it returns
Draw exactly when all 9 cells are non-empty and InProgress otherwise;
in particular a board containing such a line is never InProgress. -/
theorem evaluateOutcome_first_line_spec :
    (∀ b : Board, evaluateWinner b = evaluateOutcomeSpec b) ∧
    (∀ b : Board, (∃ l ∈ winningLines, lineAllSame b l) →
      evaluateWinner b ≠ Outcome.inProgress) := by
  refine ⟨evaluateWinner_eq_spec, fun b hex => ?_⟩
  obtain ⟨l, hl, hall⟩ := hex
  rw [evaluateWinner_eq_spec]
  unfold evaluateOutcomeSpec
  obtain ⟨l', hfind⟩ : ∃ l', winningLines.find? (fun l => decide (lineAllSame b l)) = some l' := by
    rcases hf : winningLines.find? (fun l => decide (lineAllSame b l)) with _ | l'
    · rw [List.find?_eq_none] at hf
      exact absurd (decide_eq_true hall) (by simpa using hf l hl)
    · exact ⟨l', rfl⟩
  rw [hfind]
  obtain ⟨m, h1, _, _⟩ := of_decide_eq_true
    (@List.find?_some _ (fun x => decide (lineAllSame b x)) l' winningLines hfind)
  show (match b l'.1 with
    | some m => Outcome.win m
    | none => Outcome.inProgress) ≠ Outcome.inProgress
  rw [h1]
  intro h
  cases h

theorem evaluateOutcome_first_line_spec_witness :
    (∃ l ∈ winningLines, lineAllSame oWinBoard l) ∧
      evaluateWinner oWinBoard ≠ Outcome.inProgress :=
  ⟨by decide, evaluateOutcome_first_line_spec.2 oWinBoard (by decide)⟩

/-- C3: `applyMove` on an occupied cell or in a terminal state is a
silent no-op: the whole state — board, turn, outcome, score tally — is
returned unchanged, and no error is signalled. -/
theorem applyMove_invalid_noop :
    ∀ (s : GameState) (i : Fin 9),
      s.board i ≠ none ∨ s.winner ≠ Outcome.inProgress →
      updateGameState s i = s :=
  updateGameState_noop

theorem applyMove_invalid_noop_witness : updateGameState drawnState 0 = drawnState :=
  applyMove_invalid_noop drawnState 0 (Or.inr (by decide))

/-- C4: the turn flips to the other mark after every successfully
applied move whose resulting outcome is InProgress, never changes when
the outcome is terminal, and `resetGame` sets it back to `'X'`. -/
theorem turn_alternation :
    (∀ (s : GameState) (i : Fin 9),
        s.board i = none → s.winner = Outcome.inProgress →
        evaluateWinner (setCell s.board i (some s.currentPlayer)) = Outcome.inProgress →
        (updateGameState s i).currentPlayer = otherMark s.currentPlayer) ∧
    (∀ (s : GameState) (i : Fin 9), s.winner ≠ Outcome.inProgress →
        (updateGameState s i).currentPlayer = s.currentPlayer) ∧
    (∀ s : GameState, (resetGame s).currentPlayer = Mark.X) := by
  refine ⟨fun s i hbi hw hev => ?_, fun s i hw => ?_, fun s => rfl⟩
  · rw [updateGameState_inProgress s i hbi hw hev]
  · rw [updateGameState_noop s i (Or.inr hw)]

theorem turn_alternation_witness :
    (updateGameState initState 0).currentPlayer = otherMark initState.currentPlayer ∧
      (updateGameState drawnState 0).currentPlayer = drawnState.currentPlayer :=
  ⟨turn_alternation.1 initState 0 (by decide) (by decide) (by decide),
    turn_alternation.2.1 drawnState 0 (by decide)⟩

/-- C5: the score tally of a mark increases by exactly 1 when that
mark's winning outcome is reached, the other mark's tally is untouched,
draws and ongoing moves increment neither, and `resetGame` never
changes the tally. -/
theorem score_tally :
    (∀ (s : GameState) (i : Fin 9) (m : Mark),
        s.board i = none → s.winner = Outcome.inProgress →
        evaluateWinner (setCell s.board i (some s.currentPlayer)) = Outcome.win m →
        (updateGameState s i).scores m = s.scores m + 1 ∧
          ∀ m', m' ≠ m → (updateGameState s i).scores m' = s.scores m') ∧
    (∀ (s : GameState) (i : Fin 9),
        s.board i = none → s.winner = Outcome.inProgress →
        evaluateWinner (setCell s.board i (some s.currentPlayer)) = Outcome.draw →
        (updateGameState s i).scores = s.scores) ∧
    (∀ (s : GameState) (i : Fin 9),
        s.board i = none → s.winner = Outcome.inProgress →
        evaluateWinner (setCell s.board i (some s.currentPlayer)) = Outcome.inProgress →
        (updateGameState s i).scores = s.scores) ∧
    (∀ s : GameState, (resetGame s).scores = s.scores) := by
  refine ⟨fun s i m hbi hw hev => ?_, fun s i hbi hw hev => ?_,
    fun s i hbi hw hev => ?_, fun s => rfl⟩
  · rw [updateGameState_win s i m hbi hw hev]
    refine ⟨by simp [bumpScore], fun m' hm' => by simp [bumpScore, hm']⟩
  · rw [updateGameState_draw s i hbi hw hev]
  · rw [updateGameState_inProgress s i hbi hw hev]

theorem score_tally_witness :
    (updateGameState { initState with board := blockWinBoard } 2).scores Mark.X =
        ({ initState with board := blockWinBoard } : GameState).scores Mark.X + 1 ∧
      (updateGameState { initState with board := blockWinBoard } 2).scores Mark.O =
        ({ initState with board := blockWinBoard } : GameState).scores Mark.O :=
  ⟨(score_tally.1 _ 2 Mark.X (by decide) (by decide) (by decide)).1,
    (score_tally.1 _ 2 Mark.X (by decide) (by decide) (by decide)).2 Mark.O (by decide)⟩

theorem updateGameState_board_success (s : GameState) (i : Fin 9)
    (hbi : s.board i = none) (hw : s.winner = Outcome.inProgress) :
    (updateGameState s i).board = setCell s.board i (some s.currentPlayer) := by
  rw [updateGameState_success s i hbi hw]
  cases evaluateWinner (setCell s.board i (some s.currentPlayer)) <;> rfl

/-- C6: a successful move changes exactly the targeted empty cell to
the moving mark; an occupied cell is never altered by `updateGameState`
or `makeComputerMove`; only `resetGame` clears the board. -/
theorem move_frame :
    (∀ (s : GameState) (i : Fin 9),
        s.board i = none → s.winner = Outcome.inProgress →
        (updateGameState s i).board i = some s.currentPlayer ∧
          ∀ j, j ≠ i → (updateGameState s i).board j = s.board j) ∧
    (∀ (s : GameState) (i j : Fin 9), s.board j ≠ none →
        (updateGameState s i).board j = s.board j) ∧
    (∀ (s : GameState) (r : Nat) (j : Fin 9), s.board j ≠ none →
        (makeComputerMove s r).board j = s.board j) ∧
    (∀ s : GameState, (resetGame s).board = emptyBoard) := by
  refine ⟨fun s i hbi hw => ?_, fun s i j hj => ?_, makeComputerMove_preserves, fun s => rfl⟩
  · rw [updateGameState_board_success s i hbi hw]
    exact ⟨setCell_same _ _ _, fun j hj => setCell_other _ _ _ hj⟩
  · by_cases hg : s.board i ≠ none ∨ s.winner ≠ Outcome.inProgress
    · rw [updateGameState_noop s i hg]
    · push_neg at hg
      rw [updateGameState_board_success s i hg.1 hg.2]
      exact setCell_other _ _ _ (by rintro rfl; exact hj hg.1)

theorem move_frame_witness :
    (updateGameState initState 0).board 0 = some initState.currentPlayer ∧
      (updateGameState { initState with board := blockWinBoard } 5).board 0 =
        ({ initState with board := blockWinBoard } : GameState).board 0 :=
  ⟨(move_frame.1 initState 0 (by decide) (by decide)).1,
    move_frame.2.1 { initState with board := blockWinBoard } 5 0 (by decide)⟩

/-- C7: the root of the optimal strategy returns the empty index with
the strictly greatest minimax value, ties broken by the
first-encountered index in ascending order; in particular it returns 5
on `[X, X, None, O, O, None, None, None, None]` and 2 on
`[O, O, None, X, X, None, None, None, None]`, completing its own win in
preference to blocking. -/
theorem chooseMove_argmax_first :
    (∀ b : Board, hasEmpty b = true →
        ∃ m : Fin 9, b m = none ∧ (chooseMove b).2 = (m.val : Int) ∧
          (∀ i : Fin 9, b i = none → valAt b i ≤ valAt b m) ∧
          (∀ i : Fin 9, b i = none → i < m → valAt b i < valAt b m)) ∧
    (chooseMove blockWinBoard).2 = 5 ∧ (chooseMove ownWinBoard).2 = 2 := by
  refine ⟨fun b he => ?_, by decide, by decide⟩
  obtain ⟨m, hmn, heq, hall, hstrict⟩ := chooseMove_spec b he
  exact ⟨m, hmn, by rw [heq], hall, hstrict⟩

theorem chooseMove_argmax_first_witness :
    hasEmpty blockWinBoard = true ∧
      ∃ m : Fin 9, blockWinBoard m = none ∧
        (chooseMove blockWinBoard).2 = (m.val : Int) ∧
        (∀ i : Fin 9, blockWinBoard i = none →
          valAt blockWinBoard i ≤ valAt blockWinBoard m) ∧
        (∀ i : Fin 9, blockWinBoard i = none → i < m →
          valAt blockWinBoard i < valAt blockWinBoard m) :=
  ⟨by decide, chooseMove_argmax_first.1 blockWinBoard (by decide)⟩

/-- C8: under either strategy the selected move designates an empty
cell (given an empty cell exists and the outcome is in progress), and
the scratch board mutated by the search is fully restored: the threaded
search returns the board it was handed, with the same value and move as
the functional one. -/
theorem selectMove_contract :
    (∀ b : Board, evaluateWinner b = Outcome.inProgress →
        ∃ i : Fin 9, b i = none ∧ selectMove b Difficulty.hard 0 = (i.val : Int)) ∧
    (∀ (b : Board) (r : Nat), r < (availableMoves b).length →
        ∃ i : Fin 9, b i = none ∧ selectMove b Difficulty.easy r = (i.val : Int)) ∧
    (∀ (fuel : Nat) (b : Board) (depth : Nat) (isMax : Bool),
        (minimaxT fuel b depth isMax).2 = b) ∧
    (∀ b : Board, (chooseMoveT b).2 = b ∧ (chooseMoveT b).1 = chooseMove b) := by
  refine ⟨fun b hip => ?_, fun b r hr => ?_, fun fuel b depth isMax => ?_, fun b => ?_⟩
  · have he := (evaluateWinner_inProgress_iff.mp hip).2
    obtain ⟨m, hmn, heq, _, _⟩ := chooseMove_spec b he
    refine ⟨m, hmn, ?_⟩
    show (chooseMove b).2 = _
    rw [heq]
  · have hget : (availableMoves b).get? r = some ((availableMoves b).get ⟨r, hr⟩) :=
      List.get?_eq_get hr
    refine ⟨(availableMoves b).get ⟨r, hr⟩,
      mem_availableMoves.mp (List.get_mem _ _ _), ?_⟩
    show (match (availableMoves b).get? r with
      | some i => (i.val : Int)
      | none => -1) = _
    rw [hget]
  · rw [minimaxT_eq]
  · rw [chooseMoveT_eq]
    exact ⟨rfl, rfl⟩

theorem selectMove_contract_witness :
    (∃ i : Fin 9, blockWinBoard i = none ∧
        selectMove blockWinBoard Difficulty.hard 0 = (i.val : Int)) ∧
      (∃ i : Fin 9, blockWinBoard i = none ∧
        selectMove blockWinBoard Difficulty.easy 2 = (i.val : Int)) :=
  ⟨selectMove_contract.1 blockWinBoard (by decide),
    selectMove_contract.2.1 blockWinBoard 2 (by decide)⟩

/-- C9: the leaf score is always 10, −10 or 0; when it is nonzero the
divisor `|score|` is nonzero (the zero case returns before the
division), and the minimax value of such a board is the depth-shaped
`10 − depth` for an automated-mark win and `−10 + depth` for an
opposing-mark win. -/
theorem minimax_depth_shaping :
    (∀ b : Board, evaluate b = 10 ∨ evaluate b = -10 ∨ evaluate b = 0) ∧
    (∀ b : Board, evaluate b ≠ 0 → ((evaluate b).natAbs : Int) ≠ 0) ∧
    (∀ (fuel depth : Nat) (isMax : Bool) (b : Board), evaluate b = 10 →
        minimax (fuel + 1) b depth isMax = 10 - depth) ∧
    (∀ (fuel depth : Nat) (isMax : Bool) (b : Board), evaluate b = -10 →
        minimax (fuel + 1) b depth isMax = -10 + depth) := by
  refine ⟨evaluate_cases, fun b hb => ?_, fun fuel depth isMax b hb => ?_,
    fun fuel depth isMax b hb => ?_⟩
  · rcases evaluate_cases b with h | h | h
    · rw [h]; norm_num
    · rw [h]; norm_num
    · exact absurd h hb
  · rw [minimax_succ_of_ne fuel depth isMax (by rw [hb]; norm_num), hb]
    norm_num
  · rw [minimax_succ_of_ne fuel depth isMax (by rw [hb]; norm_num), hb]
    have h1 : ((-10 : Int).natAbs : Int) = 10 := rfl
    have h2 : (-10 : Int) / 10 = -1 := rfl
    rw [h1, h2]
    ring

theorem minimax_depth_shaping_witness :
    minimax 9 oWinBoard 3 true = 10 - 3 :=
  minimax_depth_shaping.2.2.1 8 3 true oWinBoard (by decide)

theorem updateGameState_board_change (s : GameState) (i j : Fin 9)
    (h : (updateGameState s i).board j ≠ s.board j) :
    (updateGameState s i).board j = some s.currentPlayer := by
  by_cases hg : s.board i ≠ none ∨ s.winner ≠ Outcome.inProgress
  · rw [updateGameState_noop s i hg] at h
    exact absurd rfl h
  · push_neg at hg
    rw [updateGameState_board_success s i hg.1 hg.2] at h ⊢
    by_cases hj : j = i
    · subst hj
      exact setCell_same _ _ _
    · exact absurd (setCell_other _ _ _ hj) h

/-- C10: in single-player mode the automated opponent always places
`'O'` and the human always `'X'`: a tap while it is `'O'`'s turn is
ignored with no state change, any cell changed by a tap receives `'X'`,
any cell changed by the automated move receives `'O'`, and the
automated move is triggered exactly when the mode is single-player, it
is `'O'`'s turn, and the outcome is not terminal. -/
theorem single_player_roles :
    (∀ (s : GameState) (i : Fin 9), s.gameMode = GameMode.single →
        s.currentPlayer = Mark.O → handleClick s i = s) ∧
    (∀ (s : GameState) (i j : Fin 9), s.gameMode = GameMode.single →
        (handleClick s i).board j ≠ s.board j →
        (handleClick s i).board j = some Mark.X) ∧
    (∀ (s : GameState) (r : Nat) (j : Fin 9),
        (makeComputerMove s r).board j ≠ s.board j →
        (makeComputerMove s r).board j = some Mark.O) ∧
    (∀ s : GameState, computerMoveTriggered s ↔
        s.gameMode = GameMode.single ∧ s.currentPlayer = Mark.O ∧
          s.winner = Outcome.inProgress) := by
  refine ⟨fun s i hm ho => ?_, fun s i j hm h => ?_, fun s r j h => ?_, fun s => Iff.rfl⟩
  · unfold handleClick
    rw [if_neg]
    rintro (h | h)
    · rw [hm] at h
      cases h
    · rw [ho] at h
      cases h
  · unfold handleClick at h ⊢
    by_cases hcl : s.gameMode = GameMode.multi ∨ s.currentPlayer = Mark.X
    · rw [if_pos hcl] at h ⊢
      have hx : s.currentPlayer = Mark.X := by
        rcases hcl with h' | h'
        · rw [hm] at h'
          cases h'
        · exact h'
      rw [updateGameState_board_change s i j h, hx]
    · rw [if_neg hcl] at h
      exact absurd rfl h
  · rw [makeComputerMove_board] at h ⊢
    unfold applyMoveO at h ⊢
    by_cases hrange : 0 ≤ selectMove s.board s.difficulty r ∧
        selectMove s.board s.difficulty r < 9
    · rw [dif_pos hrange] at h ⊢
      by_cases hj : j = (⟨(selectMove s.board s.difficulty r).toNat, by omega⟩ : Fin 9)
      · subst hj
        exact setCell_same _ _ _
      · exact absurd (setCell_other _ _ _ hj) h
    · rw [dif_neg hrange] at h
      exact absurd rfl h

theorem single_player_roles_witness :
    handleClick { initState with currentPlayer := Mark.O } 0 =
      { initState with currentPlayer := Mark.O } :=
  single_player_roles.1 { initState with currentPlayer := Mark.O } 0 (by decide) (by decide)
